import Mathlib

/-!
The simulator `mr32sim` and its demo workload.

A shallow embedding of `src/tools/sim/mr32sim.cpp` (program loader, argument
parsing, host orchestration) and of parts of `src/sw/demo/distray.c`.

* 32-bit unsigned values are natural numbers reduced modulo `2 ^ 32` where the
  source arithmetic can wrap.
* A `std::ifstream` is a record of the unread bytes and the three state bits.
* `ram_t` lives in `ram.hpp`, which is not among the sources; it is modelled
  from the specification (bounds-checked byte store).
* Exceptions are values of `error`; functions that can throw return
  `Except error _`.
* `main` is the trace of the invoking thread; the CPU task appears through the
  result it leaves at the join.
* Floating-point values are never computed: a `float` is its bit pattern, and
  the outcome of a floating-point test is supplied from outside.
-/

namespace MR32

/-- One byte of a file (`char` / `uint8_t`). -/
abbrev byte := Fin 256

/-- The exceptions that can reach the handlers of `main`. All of them are
`std::runtime_error` values in the source; the constructor records which
message they carry. -/
inductive error where
  /-- "Unable to open the binary file." -/
  | unable_to_open
  /-- "Premature end of file." -/
  | premature_eof
  /-- Out-of-range access reported by `ram_t` at the given address. -/
  | out_of_range (addr : Nat)
  /-- "Unable to initialize GLFW." -/
  | glfw_init
  /-- "Unable to initialize GLAD." -/
  | glad_init
  /-- An illegal-instruction fault raised by the engine. -/
  | illegal_instruction (pc : Nat)
  /-- Any other `std::exception` with the given tag (engine, graphics, dump). -/
  | other (tag : Nat)
  deriving DecidableEq, Repr

/-! ## Memory -/

/-- Modelled from the spec: `ram_t` (declared in `ram.hpp`, which is missing).
"Owns a byte buffer of configurable capacity, fixed for the run. Every access
through accessors is range-checked; out-of-range access is a fatal fault, never
silent wraparound."  `size` is the capacity, `mem` the contents.  `written` is
a ghost history of the byte addresses stored to, newest first; it has no
counterpart in the program and is only used to say that a store happened. -/
structure ram_t where
  size : Nat
  mem : Nat → Nat
  written : List Nat

/-- Modelled from the spec: the constructor `ram_t(ram_size)`; the initial
contents are taken as a parameter. -/
def ram_t.create (ram_size : Nat) (init : Nat → Nat) : ram_t :=
  { size := ram_size, mem := init, written := [] }

/-- Unchecked write of one byte (the assignment inside the accessors). -/
def ram_t.poke (ram : ram_t) (addr value : Nat) : ram_t :=
  { ram with
    mem := fun a => if a = addr then value % 256 else ram.mem a,
    written := addr :: ram.written }

/-- Modelled from the spec: `ram_t::store8`. Range-checked; keeps the low
eight bits of the value. -/
def ram_t.store8 (ram : ram_t) (addr value : Nat) : Except error ram_t :=
  if addr < ram.size then .ok (ram.poke addr value) else .error (.out_of_range addr)

/-- Modelled from the spec: `ram_t::load8`. -/
def ram_t.load8 (ram : ram_t) (addr : Nat) : Except error Nat :=
  if addr < ram.size then .ok (ram.mem addr) else .error (.out_of_range addr)

/-- The four byte writes of a 32-bit store, least significant byte first. -/
def ram_t.put32 (ram : ram_t) (addr value : Nat) : ram_t :=
  (((ram.poke addr value).poke (addr + 1) (value / 2 ^ 8)).poke
    (addr + 2) (value / 2 ^ 16)).poke (addr + 3) (value / 2 ^ 24)

/-- Modelled from the spec: `ram_t::store32`. "Address plus access width must
lie within [0, capacity)"; a multi-byte access is "the composition of its
constituent byte accesses", least significant byte first. -/
def ram_t.store32 (ram : ram_t) (addr value : Nat) : Except error ram_t :=
  if addr + 4 ≤ ram.size then .ok (ram.put32 addr value) else .error (.out_of_range addr)

/-- Modelled from the spec: `ram_t::load32`, the little-endian composition of
four byte loads. -/
def ram_t.load32 (ram : ram_t) (addr : Nat) : Except error Nat :=
  if addr + 4 ≤ ram.size then
    .ok (ram.mem addr + 2 ^ 8 * ram.mem (addr + 1) + 2 ^ 16 * ram.mem (addr + 2)
      + 2 ^ 24 * ram.mem (addr + 3))
  else .error (.out_of_range addr)

/-! ## Input file streams -/

/-- The part of `std::ifstream` that `read_bin_file` observes: the bytes not
yet extracted, the state bits and the count of the last unformatted read. -/
structure ifstream where
  data : List byte
  eofbit : Bool
  failbit : Bool
  badbit : Bool
  gcount : Nat

/-- The constructor `std::ifstream f(file_name, in | binary)`. The file system
is abstracted to `none` (the file cannot be opened) or `some bytes`. A failed
open sets `failbit` and leaves `badbit` clear. -/
def ifstream.open : Option (List byte) → ifstream
  | none => { data := [], eofbit := false, failbit := true, badbit := false, gcount := 0 }
  | some bytes => { data := bytes, eofbit := false, failbit := false, badbit := false, gcount := 0 }

/-- The member `good()`: no state bit is set. -/
def ifstream.good (f : ifstream) : Bool := !f.eofbit && !f.failbit && !f.badbit

/-- The member `bad()`: only `badbit` is inspected. -/
def ifstream.bad (f : ifstream) : Bool := f.badbit

/-- The conversion `operator bool`, i.e. `!fail()`. -/
def ifstream.toBool (f : ifstream) : Bool := !f.failbit && !f.badbit

/-- The member `read(s, n)`. On a stream that is not good nothing is extracted
and `failbit` is set. Otherwise up to `n` bytes are extracted; when fewer than
`n` are available, `eofbit` and `failbit` are set. Returns the extracted bytes
and the new stream. -/
def ifstream.read (f : ifstream) (n : Nat) : List byte × ifstream :=
  if f.good then
    if n ≤ f.data.length then
      (f.data.take n, { f with data := f.data.drop n, gcount := n })
    else
      (f.data, { f with data := [], eofbit := true, failbit := true, gcount := f.data.length })
  else
    ([], { f with failbit := true, gcount := 0 })

/-- Little-endian decoding of the four header bytes into a `uint32_t`
(`reinterpret_cast` on a little-endian host). -/
def decode_le32 (b0 b1 b2 b3 : byte) : Nat :=
  b0.val + 2 ^ 8 * b1.val + 2 ^ 16 * b2.val + 2 ^ 24 * b3.val

/-! ## The loader -/

/-- What `read_bin_file` leaves behind when it returns normally: the memory and
the two numbers it prints in verbose mode. -/
structure load_report where
  ram : ram_t
  start_addr : Nat
  total_bytes_read : Nat

/-- The loop `while (f.good()) { ... }` of `read_bin_file`. `stale` is the
content of the uninitialised local `byte` when the one-byte read extracts
nothing. `none` means that the iteration bound `fuel` was too small. -/
def load_loop : Nat → byte → ifstream → ram_t → Nat → Nat → Option (Except error (ram_t × Nat))
  | 0, _, _, _, _, _ => none
  | fuel + 1, stale, f, ram, current_addr, total_bytes_read =>
    if f.good then
      let r := f.read 1
      let b : byte := match r.1 with
        | x :: _ => x
        | [] => stale
      match ram.store8 current_addr b.val with
      | .error e => some (.error e)
      | .ok ram1 =>
        let bytes_read := if r.2.toBool then 1 else r.2.gcount % 2 ^ 32
        load_loop fuel stale r.2 ram1 ((current_addr + bytes_read) % 2 ^ 32)
          ((total_bytes_read + bytes_read) % 2 ^ 32)
    else
      some (.ok (ram, total_bytes_read))

/-- The block "Read the start address" of `read_bin_file`: without an override
four bytes are read into `start_addr`, and a stream that is not good afterwards
raises "Premature end of file."; with an override the address is `addr` and the
stream is untouched. -/
def read_start_addr (f : ifstream) (override_addr : Bool) (addr : Nat) :
    Except error (Nat × ifstream) :=
  if !override_addr then
    let r := f.read 4
    if !r.2.good then .error .premature_eof
    else
      match r.1 with
      | [b0, b1, b2, b3] => .ok (decode_le32 b0 b1 b2 b3, r.2)
      | _ => .error .premature_eof
  else .ok (addr, f)

/-- The function `read_bin_file(file_name, ram, override_addr, addr)`. The file
named by `file_name` is `file`. The loop is entered at most once per unread
byte and once more for the read that fails; the bound leaves room for the final
test. -/
def read_bin_file (file : Option (List byte)) (ram : ram_t) (override_addr : Bool)
    (addr : Nat) (stale : byte) : Option (Except error load_report) :=
  let f := ifstream.open file
  if f.bad then some (.error .unable_to_open)
  else
    match read_start_addr f override_addr addr with
    | .error e => some (.error e)
    | .ok (start_addr, f1) =>
      match load_loop (f1.data.length + 2) stale f1 ram start_addr 0 with
      | none => none
      | some (.error e) => some (.error e)
      | some (.ok (ram1, total)) =>
        some (.ok { ram := ram1, start_addr := start_addr, total_bytes_read := total })

/-- A memory of `n` zero bytes. -/
def zero_ram (n : Nat) : ram_t := ram_t.create n (fun _ => 0)

/-- The memory the loop leaves when started at `cur` on a good stream holding
`payload`: one store per byte, then one more store of `stale` behind them. -/
def blit (ram : ram_t) (cur : Nat) (stale : byte) : List byte → ram_t
  | [] => ram.poke cur stale.val
  | b :: bs => blit (ram.poke cur b.val) (cur + 1) stale bs

/-- A stream in the good state holding `payload`. -/
def fresh (payload : List byte) (gc : Nat) : ifstream :=
  { data := payload, eofbit := false, failbit := false, badbit := false, gcount := gc }


/-! ## Number parsing -/

/-- The C predicate `isspace` in the "C" locale. -/
def isspace (c : Char) : Bool :=
  c.toNat = 32 || (9 ≤ c.toNat && c.toNat ≤ 13)

/-- The value of a character as a digit in bases up to 36. -/
def digit_value (c : Char) : Option Nat :=
  if 48 ≤ c.toNat ∧ c.toNat ≤ 57 then some (c.toNat - 48)
  else if 97 ≤ c.toNat ∧ c.toNat ≤ 122 then some (c.toNat - 87)
  else if 65 ≤ c.toNat ∧ c.toNat ≤ 90 then some (c.toNat - 55)
  else none

/-- Whether `c` is a digit of the given base. -/
def is_digit (base : Nat) (c : Char) : Bool :=
  match digit_value c with
  | some d => decide (d < base)
  | none => false

/-- The longest run of digits at the head of the input: its value and whether
it is non-empty. -/
def scan_digits (base : Nat) : List Char → Nat → Bool → Nat × Bool
  | [], acc, any => (acc, any)
  | c :: cs, acc, any =>
    match digit_value c with
    | some d => if d < base then scan_digits base cs (acc * base + d) true else (acc, any)
    | none => (acc, any)

/-- Leading white space is skipped. -/
def skip_space : List Char → List Char
  | [] => []
  | c :: cs => if isspace c then skip_space cs else c :: cs

/-- The standard library call `std::stoull(str, nullptr, 0)`, which is not part
of the repository: white space, an optional sign, base detection (`0x` for
sixteen, a leading `0` for eight, ten otherwise) and the longest run of digits.
`none` stands for the two exceptions (`std::invalid_argument` when there is no
digit, `std::out_of_range` when the value does not fit 64 bits); a minus sign
negates modulo `2 ^ 64`. Text behind the digits is ignored. -/
def stoull_model (str : String) : Option Nat :=
  let s := skip_space str.toList
  let signed : Bool × List Char :=
    match s with
    | c :: cs =>
      if c.toNat = 45 then (true, cs) else if c.toNat = 43 then (false, cs) else (false, s)
    | [] => (false, [])
  let based : Nat × List Char :=
    match signed.2 with
    | z :: x :: h :: cs =>
      if z.toNat = 48 ∧ (x.toNat = 120 ∨ x.toNat = 88) ∧ is_digit 16 h = true then (16, h :: cs)
      else if z.toNat = 48 then (8, signed.2) else (10, signed.2)
    | z :: _ => if z.toNat = 48 then (8, signed.2) else (10, signed.2)
    | [] => (10, [])
  let r := scan_digits based.1 based.2 0 false
  if !r.2 then none
  else if 2 ^ 64 ≤ r.1 then none
  else some (if signed.1 then (2 ^ 64 - r.1) % 2 ^ 64 else r.1)

/-- The function `str_to_uint64`; `stoull` is the library call it wraps. -/
def str_to_uint64 (stoull : String → Option Nat) (str : String) : Option Nat :=
  (stoull str).map (fun v => v % 2 ^ 64)

/-- The cast `static_cast<int64_t>` of a 64-bit unsigned value. -/
def to_int64 (v : Nat) : Int :=
  if v % 2 ^ 64 < 2 ^ 63 then ((v % 2 ^ 64 : Nat) : Int) else ((v % 2 ^ 64 : Nat) : Int) - 2 ^ 64

/-- The cast `static_cast<int>` of a 32-bit unsigned value. -/
def to_int32 (v : Nat) : Int :=
  if v % 2 ^ 32 < 2 ^ 31 then ((v % 2 ^ 32 : Nat) : Int) else ((v % 2 ^ 32 : Nat) : Int) - 2 ^ 32

/-- The function `str_to_int64`. -/
def str_to_int64 (stoull : String → Option Nat) (str : String) : Option Int :=
  (str_to_uint64 stoull str).map to_int64

/-- The function `str_to_uint32`. -/
def str_to_uint32 (stoull : String → Option Nat) (str : String) : Option Nat :=
  (str_to_uint64 stoull str).map (fun v => v % 2 ^ 32)

/-! ## Command line -/

/-- Modelled from the spec: `config_t` (declared in `config.hpp`, which is
missing), the "process inputs": verbosity, graphics enable/size/address
overrides, trace-file path, RAM size. -/
structure config_t where
  verbose : Bool
  gfx_enabled : Bool
  gfx_addr : Nat
  gfx_width : Nat
  gfx_height : Nat
  gfx_depth : Nat
  trace_file_name : String
  trace_enabled : Bool
  ram_size : Nat
  deriving DecidableEq

/-- The locals of `main` that the argument loop fills in, with the
configuration singleton. -/
structure cmdline where
  config : config_t
  bin_file : Option String
  bin_addr : Nat
  bin_addr_defined : Bool
  max_cycles : Int
  deriving DecidableEq

/-- How argument parsing ends: a call of `exit`, or the values it collected. -/
inductive parsed where
  | exit (code : Int)
  | go (c : cmdline)
  deriving DecidableEq

/-- The test `argv[k][0] == '-'`. -/
def is_option (a : String) : Bool :=
  match a.toList with
  | c :: _ => c.toNat = 45
  | [] => false

/-- The loop `for (int k = 1; k < argc; ++k)` of `main`, on the arguments not
yet visited. A missing value, an unknown option, a second program file and an
exception of the number parser (the `catch (...)`) all end in `exit(1)`. -/
def parse_loop (stoull : String → Option Nat) : List String → cmdline → parsed
  | [], c => .go c
  | a :: rest, c =>
    if is_option a then
      if a = "--help" ∨ a = "-h" ∨ a = "-?" then .exit 0
      else if a = "-v" ∨ a = "--verbose" then
        parse_loop stoull rest { c with config := { c.config with verbose := true } }
      else if a = "-g" ∨ a = "--gfx" then
        parse_loop stoull rest { c with config := { c.config with gfx_enabled := true } }
      else if a = "-ga" ∨ a = "--gfx-addr" then
        match rest with
        | [] => .exit 1
        | v :: rest2 =>
          match str_to_uint32 stoull v with
          | none => .exit 1
          | some x => parse_loop stoull rest2 { c with config := { c.config with gfx_addr := x } }
      else if a = "-gw" ∨ a = "--gfx-width" then
        match rest with
        | [] => .exit 1
        | v :: rest2 =>
          match str_to_uint32 stoull v with
          | none => .exit 1
          | some x => parse_loop stoull rest2 { c with config := { c.config with gfx_width := x } }
      else if a = "-gh" ∨ a = "--gfx-height" then
        match rest with
        | [] => .exit 1
        | v :: rest2 =>
          match str_to_uint32 stoull v with
          | none => .exit 1
          | some x => parse_loop stoull rest2 { c with config := { c.config with gfx_height := x } }
      else if a = "-gd" ∨ a = "--gfx-depth" then
        match rest with
        | [] => .exit 1
        | v :: rest2 =>
          match str_to_uint32 stoull v with
          | none => .exit 1
          | some x => parse_loop stoull rest2 { c with config := { c.config with gfx_depth := x } }
      else if a = "-t" ∨ a = "--trace" then
        match rest with
        | [] => .exit 1
        | v :: rest2 =>
          parse_loop stoull rest2
            { c with config := { c.config with trace_file_name := v, trace_enabled := true } }
      else if a = "-R" ∨ a = "--ram-size" then
        match rest with
        | [] => .exit 1
        | v :: rest2 =>
          match str_to_uint64 stoull v with
          | none => .exit 1
          | some x => parse_loop stoull rest2 { c with config := { c.config with ram_size := x } }
      else if a = "-A" ∨ a = "--addr" then
        match rest with
        | [] => .exit 1
        | v :: rest2 =>
          match str_to_uint32 stoull v with
          | none => .exit 1
          | some x => parse_loop stoull rest2 { c with bin_addr := x, bin_addr_defined := true }
      else if a = "-c" ∨ a = "--cycles" then
        match rest with
        | [] => .exit 1
        | v :: rest2 =>
          match str_to_int64 stoull v with
          | none => .exit 1
          | some x => parse_loop stoull rest2 { c with max_cycles := x }
      else .exit 1
    else if c.bin_file.isNone then parse_loop stoull rest { c with bin_file := some a }
    else .exit 1

/-- The values of the locals of `main` before the argument loop. -/
def initial_cmdline (cfg0 : config_t) : cmdline :=
  { config := cfg0, bin_file := none, bin_addr := 0, bin_addr_defined := false, max_cycles := -1 }

/-- Argument parsing of `main`: the loop over `argv[1..]`, then the test that a
program file was given. `cfg0` is the configuration singleton before parsing. -/
def parse_args (stoull : String → Option Nat) (argv : List String) (cfg0 : config_t) : parsed :=
  match parse_loop stoull argv.tail (initial_cmdline cfg0) with
  | .exit code => .exit code
  | .go c => if c.bin_file.isNone then .exit 1 else .go c

/-! ## The host program after argument parsing -/

/-- The constant `MMIO_START` of `main`. -/
def MMIO_START : Nat := 0xc0000000

/-- The block "Populate MMIO memory with MC1 fields" of `main`. The guard
compares the configured RAM size with the 32-bit sum `MMIO_START + 64`. -/
def populate_mmio (ram_size : Nat) (ram : ram_t) : Except error ram_t :=
  if ram_size ≥ (MMIO_START + 64) % 2 ^ 32 then do
    let r1 ← ram.store32 ((MMIO_START + 8) % 2 ^ 32) 70000000
    let r2 ← r1.store32 ((MMIO_START + 12) % 2 ^ 32) (128 * 1024)
    let r3 ← r2.store32 ((MMIO_START + 20) % 2 ^ 32) 1920
    let r4 ← r3.store32 ((MMIO_START + 24) % 2 ^ 32) 1080
    let r5 ← r4.store32 ((MMIO_START + 28) % 2 ^ 32) (60 * 65536)
    r5.store32 ((MMIO_START + 40) % 2 ^ 32) 4
  else .ok ram

/-- Modelled from the spec: what `cpu_simple_t::run(max_cycles)` does (the
engine is declared in `cpu_simple.hpp`, which is missing). It either returns a
32-bit status or raises a fault, which is a `std::exception` as every fault in
the sources is. -/
inductive run_outcome where
  | returned (status : Nat)
  | threw (e : error)
  deriving DecidableEq

/-- The variables shared with the CPU task, as the joining thread finds them,
and what the task wrote to the error stream. -/
structure task_result where
  cpu_exit_code : Nat
  cpu_done : Bool
  logged : Option error
  deriving DecidableEq

/-- The body of the lambda that `cpu_thread` runs: `try { cpu_exit_code =
cpu.run(max_cycles); } catch (std::exception& e) { ...; cpu_exit_code = 1u; }
cpu_done = true;`. -/
def cpu_thread (r : run_outcome) : task_result :=
  match r with
  | .returned s => { cpu_exit_code := s % 2 ^ 32, cpu_done := true, logged := none }
  | .threw e => { cpu_exit_code := 1, cpu_done := true, logged := some e }

/-- What the invoking thread does, in program order. -/
inductive event where
  | ram_created
  | image_loaded
  | mmio_populated
  | cpu_created
  | cpu_thread_started
  | frame_counter (value : Nat)
  | gfx_error (e : error)
  | terminate_requested
  | joined
  | exit_code_read (code : Int)
  | stats_dumped
  | ram_dumped
  | error_logged (e : error)
  | exit (code : Int)
  deriving DecidableEq

/-- What the main loop of the graphics block leaves: the memory, the values it
stored to the frame-counter word (oldest first), the number of frames painted
and the exception that ended it, if any. -/
structure loop_result where
  ram : ram_t
  counter_values : List Nat
  painted : Nat
  failure : Option error

/-- The loop `while (!glfwWindowShouldClose(window))` of `main`. The first
argument is the number of times the window reports that it should stay open;
`gpu_throws i` tells whether `gpu.configure()` throws in iteration `i` (the GPU
is declared in `gpu.hpp`, which is missing). Each iteration stores `frame_no`
to `0xc0000020`, increments it as a `uint32_t`, and paints. -/
def presentation_loop (gpu_throws : Nat → Bool) : Nat → Nat → ram_t → Nat → loop_result
  | 0, _, ram, _ => { ram := ram, counter_values := [], painted := 0, failure := none }
  | k + 1, i, ram, frame_no =>
    if gpu_throws i then
      { ram := ram, counter_values := [], painted := 0, failure := some (.other 0) }
    else
      match ram.store32 0xc0000020 frame_no with
      | .error e => { ram := ram, counter_values := [], painted := 0, failure := some e }
      | .ok ram1 =>
        let r := presentation_loop gpu_throws k (i + 1) ram1 ((frame_no + 1) % 2 ^ 32)
        { r with counter_values := frame_no :: r.counter_values, painted := r.painted + 1 }

/-- The environment of the graphics block: the results of the GLFW and GLAD
calls, how long the window stays open and when the GPU throws. -/
structure gfx_env where
  glfw_init_ok : Bool
  window_created : Bool
  glad_ok : Bool
  frames : Nat
  gpu_throws : Nat → Bool

/-- The block `if (config_t::instance().gfx_enabled()) { try { ... } catch
(std::exception& e) { ... } cpu.terminate(); }` of `main`. -/
def gfx_block (g : gfx_env) (ram : ram_t) : List event :=
  let body : List event × Option error :=
    if !g.glfw_init_ok then ([], some .glfw_init)
    else if !g.window_created then ([], none)
    else if !g.glad_ok then ([], some .glad_init)
    else
      let r := presentation_loop g.gpu_throws g.frames 0 ram 0
      (r.counter_values.map event.frame_counter, r.failure)
  body.1 ++ (match body.2 with
    | some e => [event.gfx_error e]
    | none => []) ++ [event.terminate_requested]

/-- Everything outside the program that a run of `main` depends on. `fs` is
the file system, `engine` the behaviour of `cpu.run` depending on whether a
termination request reached it before it halted on its own, `request_in_time`
whether a request made by the graphics block does so, `gui_built` whether the
program was compiled with `ENABLE_GUI`. -/
structure world where
  fs : String → Option (List byte)
  stale : byte
  init_mem : Nat → Nat
  gui_built : Bool
  gfx : gfx_env
  engine : Bool → run_outcome
  request_in_time : Bool
  dump_stats_fault : Option error
  dump_ram_fault : Option error

/-- The statements of `main` behind `cpu_thread.join()`. -/
def after_join (w : world) (verbose : Bool) (t : task_result) : List event :=
  let exit_code := to_int32 t.cpu_exit_code
  let stats : List event × Option error :=
    if verbose then
      match w.dump_stats_fault with
      | some e => ([], some e)
      | none => ([event.stats_dumped], none)
    else ([], none)
  match stats.2 with
  | some e => [event.exit_code_read exit_code] ++ stats.1 ++ [event.error_logged e, event.exit 1]
  | none =>
    match w.dump_ram_fault with
    | some e => [event.exit_code_read exit_code] ++ stats.1 ++ [event.error_logged e, event.exit 1]
    | none => [event.exit_code_read exit_code] ++ stats.1 ++ [event.ram_dumped, event.exit exit_code]

/-- The result of the CPU task in a run: the engine is told to terminate only
when the graphics block ran and its request came in time. -/
def cpu_task (w : world) (c : cmdline) : task_result :=
  cpu_thread (w.engine (w.gui_built && c.config.gfx_enabled && w.request_in_time))

/-- The content of the file named on the command line, if it can be opened. -/
def image_of (w : world) (c : cmdline) : Option (List byte) :=
  match c.bin_file with
  | some name => w.fs name
  | none => none

/-- The call `read_bin_file(bin_file, ram, bin_addr_defined, bin_addr)` of
`main`, on the memory just created. -/
def load_image (w : world) (c : cmdline) : Option (Except error load_report) :=
  read_bin_file (image_of w c) (ram_t.create c.config.ram_size w.init_mem) c.bin_addr_defined
    c.bin_addr w.stale

/-- The second `try` block of `main`, for the parsed command line `c`. -/
def main_run (w : world) (c : cmdline) : List event :=
  match load_image w c with
  | none => []
  | some (.error e) => [event.ram_created, event.error_logged e, event.exit 1]
  | some (.ok rep) =>
    match populate_mmio c.config.ram_size rep.ram with
    | .error e => [event.ram_created, event.image_loaded, event.error_logged e, event.exit 1]
    | .ok ram1 =>
      [event.ram_created, event.image_loaded, event.mmio_populated, event.cpu_created,
        event.cpu_thread_started]
      ++ (if w.gui_built && c.config.gfx_enabled then gfx_block w.gfx ram1 else [])
      ++ [event.joined]
      ++ after_join w c.config.verbose (cpu_task w c)

/-- The function `main`. -/
def main (stoull : String → Option Nat) (w : world) (argv : List String) (cfg0 : config_t) :
    List event :=
  match parse_args stoull argv cfg0 with
  | .exit code => [event.exit code]
  | .go c => main_run w c

/-- The argument of the call of `exit` that ends a run. -/
def exit_status : List event → Option Int
  | [] => none
  | event.exit code :: _ => some code
  | _ :: rest => exit_status rest

/-- The events that report a result or end the process. -/
def event.reports : event → Bool
  | .exit_code_read _ => true
  | .stats_dumped => true
  | .ram_dumped => true
  | .exit _ => true
  | _ => false

/-- A graphics environment in which everything works and the window is closed
after `n` frames. -/
def working_gfx (n : Nat) : gfx_env :=
  { glfw_init_ok := true, window_created := true, glad_ok := true, frames := n,
    gpu_throws := fun _ => false }

/-- A sample world: every file name denotes an image with header address 0 and
four payload bytes, the memory starts zeroed, the program is built with the
graphics block. -/
def sample_world (g : gfx_env) (engine : Bool → run_outcome) : world :=
  { fs := fun _ => some [0, 0, 0, 0, 1, 2, 3, 4], stale := 0, init_mem := fun _ => 0,
    gui_built := true, gfx := g, engine := engine, request_in_time := true,
    dump_stats_fault := none, dump_ram_fault := none }

/-- A sample command line: `mr32sim -R 0x100000000 prog.bin`, with `-g` when
`gfx` is set. -/
def sample_cmdline (gfx : Bool) : cmdline :=
  { config := { verbose := false, gfx_enabled := gfx, gfx_addr := 0, gfx_width := 0,
                gfx_height := 0, gfx_depth := 0, trace_file_name := "", trace_enabled := false,
                ram_size := 0x100000000 },
    bin_file := some "prog.bin", bin_addr := 0, bin_addr_defined := false, max_cycles := -1 }

/-! ## Well-formed command lines -/

/-- The options of `print_help` that take no value (without the help options). -/
def flag_names : List String := ["-v", "--verbose", "-g", "--gfx"]

/-- The options whose value goes through the number parser. -/
def numeric_names : List String :=
  ["-ga", "--gfx-addr", "-gw", "--gfx-width", "-gh", "--gfx-height", "-gd", "--gfx-depth",
   "-R", "--ram-size", "-A", "--addr", "-c", "--cycles"]

/-- The option whose value is a file name. -/
def trace_names : List String := ["-t", "--trace"]

/-- One item of a command line: an option without value, an option with its
value, or a positional argument. -/
inductive arg_item where
  | flag (name : String)
  | valued (name : String) (value : String)
  | positional (path : String)

/-- The elements of `argv` that an item stands for. -/
def arg_item.render : arg_item → List String
  | .flag name => [name]
  | .valued name value => [name, value]
  | .positional path => [path]

/-- An item is well formed when its option is a recognised one, a numeric value
is accepted by the number parser, and a positional argument does not start with
a dash. -/
def arg_item.well_formed (stoull : String → Option Nat) : arg_item → Bool
  | .flag name => flag_names.contains name
  | .valued name value =>
    trace_names.contains name || (numeric_names.contains name && (stoull value).isSome)
  | .positional path => !is_option path

/-- The positional arguments of a command line, in order. -/
def positionals : List arg_item → List String
  | [] => []
  | .positional path :: rest => path :: positionals rest
  | _ :: rest => positionals rest

/-- The elements of `argv` behind the program name. -/
def render_all : List arg_item → List String
  | [] => []
  | item :: rest => item.render ++ render_all rest

/-! ## The demo program `distray.c`

Floating-point values are not computed. A `float` appears only as its 32-bit
pattern, or through the outcome of a comparison, which the scene supplies. -/

/-- The macro `WIDTH`. -/
def WIDTH : Nat := 320

/-- The macro `HEIGHT`. -/
def HEIGHT : Nat := 180

/-- The macro `MAXREC`. -/
def MAXREC : Int := 5

/-- The macro `DISTRIB`. -/
def DISTRIB : Nat := 8

/-- The macro `DISTLEVELS`. -/
def DISTLEVELS : Int := 0

/-- The function `sqrtf_normalize(arg, exp)` on the bit pattern of `arg`: the
bit pattern of the returned float and the value stored to `*exp`. -/
def sqrtf_normalize (arg_bits : Nat) : Nat × Int :=
  let old_exponent := (arg_bits >>> 24) &&& 0x7f
  let exp : Int := (old_exponent : Int) - 63
  let normalized_bits := (arg_bits &&& 0x80ffffff) ||| 0x3f000000
  (normalized_bits, exp)

/-- The biased exponent field (bits 23 to 30) of a single-precision pattern. -/
def biased_exponent (bits : Nat) : Nat := (bits >>> 23) &&& 0xff

/-- The sign bit (bit 31) of a single-precision pattern. -/
def sign_bit (bits : Nat) : Nat := (bits >>> 31) &&& 1

/-- The fraction field (bits 0 to 22) of a single-precision pattern. -/
def fraction (bits : Nat) : Nat := bits &&& 0x7fffff

/-- The number a single-precision pattern denotes (IEEE 754): `none` for an
infinity or a NaN, a subnormal value for a zero exponent field, and
`(-1)^s * (2^23 + fraction) * 2^(e - 150)` for a normal number. -/
def float_value (bits : Nat) : Option ℚ :=
  let sgn : ℚ := if sign_bit bits = 1 then -1 else 1
  if biased_exponent bits = 255 then none
  else if biased_exponent bits = 0 then some (sgn * (fraction bits : ℚ) / 2 ^ 149)
  else if 150 ≤ biased_exponent bits then
    some (sgn * ((2 ^ 23 + fraction bits : Nat) : ℚ) * 2 ^ (biased_exponent bits - 150))
  else some (sgn * ((2 ^ 23 + fraction bits : Nat) : ℚ) / 2 ^ (150 - biased_exponent bits))

/-- The assignment to `s_rnd` in `Jitter`, for an `unsigned long` of `w` bits:
`s_rnd = (1103515245L * s_rnd + 12345L) & 0x7fffffffL`. -/
def Jitter_state (w : Nat) (s_rnd : Nat) : Nat :=
  (((1103515245 * s_rnd) % 2 ^ w + 12345) % 2 ^ w) &&& 0x7fffffff

/-- The state update of `Jitter` as a linear congruential step modulo `2 ^ 31`. -/
def Jitter_spec (s : Nat) : Nat := (1103515245 * s + 12345) % 2 ^ 31

/-- What `TraceLine` leaves in `*Color`: the zero vector written on entry, or a
value computed in floating point. -/
inductive colour where
  | zero
  | computed
  deriving DecidableEq

/-- The outcomes of the floating-point tests of one `TraceLine` invocation on a
ray of type `R`, and the rays it goes on with. -/
structure scene (R : Type) where
  /-- The test `t > EPSILON` behind the first `IntersectObjs`. -/
  hit : R → Bool
  /-- The test `cosfi > 0.0f`. -/
  lit : R → Bool
  /-- The test `txt->reflect > EPSILON`. -/
  reflective : R → Bool
  /-- The test `txt->roughness > EPSILON`. -/
  rough : R → Bool
  /-- The ray `(Pnt, NewDir)` that `ReflectVector` yields. -/
  reflected : R → R
  /-- The ray `(Pnt, NewDir2)` that `DistribVector` yields from the random state. -/
  distributed : R → Nat → R

/-- Counters of one `TraceLine` call: invocations of `TraceLine` (this one
included), recursive calls made by this invocation itself, calls of
`IntersectObjs`, calls of `Jitter`, and the random state afterwards. -/
structure trace_stats where
  calls : Nat
  direct : Nat
  intersections : Nat
  jitters : Nat
  s_rnd : Nat
  deriving DecidableEq

/-- The loop `for (i = 0; i < DISTRIB; i++)` of the distributed reflection:
`DistribVector` (two calls of `Jitter`) and one recursive call per round. The
argument `rec` is `TraceLine` at `reccount - 1`. -/
def distributed_rounds {R : Type} (sc : scene R) (rec : R → Nat → colour × trace_stats)
    (ray : R) : Nat → trace_stats → trace_stats
  | 0, acc => acc
  | k + 1, acc =>
    let s2 := Jitter_state 32 (Jitter_state 32 acc.s_rnd)
    let r := rec (sc.distributed ray acc.s_rnd) s2
    distributed_rounds sc rec ray k
      { calls := acc.calls + r.2.calls, direct := acc.direct + 1,
        intersections := acc.intersections + r.2.intersections,
        jitters := acc.jitters + 2 + r.2.jitters, s_rnd := r.2.s_rnd }

/-- The function `TraceLine(LinP, LinD, Color, reccount)` for `reccount` given
as a natural number; 0 stands for every `reccount <= 0`. The random state is
the one of the MRISC32 target. -/
def TraceLine_rec {R : Type} (sc : scene R) : Nat → R → Nat → colour × trace_stats
  | 0, _, s => (.zero, { calls := 1, direct := 0, intersections := 0, jitters := 0, s_rnd := s })
  | n + 1, ray, s =>
    let usedist : Bool := decide (MAXREC - ((n + 1 : Nat) : Int) < DISTLEVELS)
    if sc.hit ray then
      let shadow : trace_stats :=
        if sc.lit ray then
          if usedist then
            { calls := 0, direct := 0, intersections := DISTRIB, jitters := 2 * DISTRIB,
              s_rnd := (fun x => Jitter_state 32 (Jitter_state 32 x))^[DISTRIB] s }
          else { calls := 0, direct := 0, intersections := 1, jitters := 0, s_rnd := s }
        else { calls := 0, direct := 0, intersections := 0, jitters := 0, s_rnd := s }
      let start : trace_stats :=
        { calls := 1, direct := 0, intersections := 1 + shadow.intersections,
          jitters := shadow.jitters, s_rnd := shadow.s_rnd }
      if sc.reflective ray then
        if usedist && sc.rough ray then
          (.computed, distributed_rounds sc (TraceLine_rec sc n) (sc.reflected ray) DISTRIB start)
        else
          let r := TraceLine_rec sc n (sc.reflected ray) start.s_rnd
          (.computed,
            { calls := start.calls + r.2.calls, direct := 1,
              intersections := start.intersections + r.2.intersections,
              jitters := start.jitters + r.2.jitters, s_rnd := r.2.s_rnd })
      else (.computed, start)
    else
      (.computed, { calls := 1, direct := 0, intersections := 1, jitters := 0, s_rnd := s })

/-- The function `TraceLine` for an `int` recursion count. -/
def TraceLine {R : Type} (sc : scene R) (ray : R) (reccount : Int) (s_rnd : Nat) :
    colour × trace_stats :=
  TraceLine_rec sc reccount.toNat ray s_rnd

/-- The four stores of `TraceScene` for the pixel `(sx, sy)`, as pairs of byte
offset and value; `pix` gives the three colour bytes that the floating-point
computation yields. -/
def pixel_stores (pix : Nat → Nat → byte × byte × byte) (sx sy : Nat) : List (Nat × Nat) :=
  [(4 * (sx + sy * WIDTH), (pix sx sy).1.val),
   (4 * (sx + sy * WIDTH) + 1, (pix sx sy).2.1.val),
   (4 * (sx + sy * WIDTH) + 2, (pix sx sy).2.2.val),
   (4 * (sx + sy * WIDTH) + 3, 255)]

/-- The function `TraceScene(memory)`: the stores to `memory`, in program
order. -/
def TraceScene (pix : Nat → Nat → byte × byte × byte) : List (Nat × Nat) :=
  (List.range HEIGHT).flatMap (fun sy =>
    (List.range WIDTH).flatMap (fun sx => pixel_stores pix sx sy))

/-- A scene in which every ray hits a lit, reflective, rough surface. -/
def mirror_hall : scene Unit :=
  { hit := fun _ => true, lit := fun _ => true, reflective := fun _ => true,
    rough := fun _ => true, reflected := fun _ => (), distributed := fun _ _ => () }
/-! ## Properties of the memory model -/

theorem blit_size (stale : byte) (l : List byte) :
    ∀ (ram : ram_t) (cur : Nat), (blit ram cur stale l).size = ram.size := by
  induction l with
  | nil => intro ram cur; rfl
  | cons b bs ih => intro ram cur; simp [blit, ih, ram_t.poke]

theorem blit_mem_below (stale : byte) (l : List byte) :
    ∀ (ram : ram_t) (cur a : Nat), a < cur → (blit ram cur stale l).mem a = ram.mem a := by
  induction l with
  | nil =>
    intro ram cur a h
    have : a ≠ cur := by omega
    simp [blit, ram_t.poke, this]
  | cons b bs ih =>
    intro ram cur a h
    have h1 : a ≠ cur := by omega
    rw [blit, ih _ _ _ (by omega)]
    simp [ram_t.poke, h1]

theorem blit_mem_above (stale : byte) (l : List byte) :
    ∀ (ram : ram_t) (cur a : Nat), cur + l.length < a →
      (blit ram cur stale l).mem a = ram.mem a := by
  induction l with
  | nil =>
    intro ram cur a h
    have : a ≠ cur := by simp at h; omega
    simp [blit, ram_t.poke, this]
  | cons b bs ih =>
    intro ram cur a h
    simp only [List.length_cons] at h
    have h1 : a ≠ cur := by omega
    rw [blit, ih _ _ _ (by omega)]
    simp [ram_t.poke, h1]

theorem blit_mem_payload (stale : byte) (l : List byte) :
    ∀ (ram : ram_t) (cur i : Nat) (h : i < l.length),
      (blit ram cur stale l).mem (cur + i) = (l[i]).val := by
  induction l with
  | nil => intro ram cur i h; simp at h
  | cons b bs ih =>
    intro ram cur i h
    cases i with
    | zero =>
      have hlt : cur < cur + 1 := by omega
      have hb := blit_mem_below stale bs (ram.poke cur b.val) (cur + 1) cur hlt
      simp only [blit, Nat.add_zero, hb]
      simp [ram_t.poke, Nat.mod_eq_of_lt b.isLt]
    | succ j =>
      have hj : j < bs.length := by simpa using h
      have := ih (ram.poke cur b.val) (cur + 1) j hj
      rw [blit]
      have e : cur + (j + 1) = cur + 1 + j := by omega
      rw [e, this]
      simp

theorem blit_mem_end (stale : byte) (l : List byte) :
    ∀ (ram : ram_t) (cur : Nat), (blit ram cur stale l).mem (cur + l.length) = stale.val := by
  induction l with
  | nil => intro ram cur; simp [blit, ram_t.poke, Nat.mod_eq_of_lt stale.isLt]
  | cons b bs ih =>
    intro ram cur
    have := ih (ram.poke cur b.val) (cur + 1)
    rw [blit]
    have e : cur + (b :: bs).length = cur + 1 + bs.length := by simp; omega
    rw [e, this]

theorem blit_written_length (stale : byte) (l : List byte) :
    ∀ (ram : ram_t) (cur : Nat),
      (blit ram cur stale l).written.length = ram.written.length + l.length + 1 := by
  induction l with
  | nil => intro ram cur; simp [blit, ram_t.poke]
  | cons b bs ih => intro ram cur; rw [blit, ih]; simp [ram_t.poke]; omega

/-- The loop on a good stream: when the payload and the byte behind it fit in
memory (and below `2 ^ 32`), the loop returns, the memory is `blit` and the
byte count has grown by the payload length. -/
theorem load_loop_fits (stale : byte) (payload : List byte) :
    ∀ (fuel gc : Nat) (ram : ram_t) (cur total : Nat),
      payload.length + 2 ≤ fuel → cur + payload.length < ram.size →
      cur + payload.length < 2 ^ 32 → total + payload.length < 2 ^ 32 →
      load_loop fuel stale (fresh payload gc) ram cur total
        = some (.ok (blit ram cur stale payload, total + payload.length)) := by
  induction payload with
  | nil =>
    intro fuel gc ram cur total hf hs hc ht
    obtain ⟨n, rfl⟩ : ∃ n, fuel = n + 2 := ⟨fuel - 2, by simp at hf; omega⟩
    simp at hs hc ht
    simp [load_loop, fresh, ifstream.good, ifstream.read, ifstream.toBool, ram_t.store8, hs,
      blit, Nat.mod_eq_of_lt hc, Nat.mod_eq_of_lt ht]
  | cons b bs ih =>
    intro fuel gc ram cur total hf hs hc ht
    obtain ⟨n, rfl⟩ : ∃ n, fuel = n + 1 := ⟨fuel - 1, by simp at hf; omega⟩
    simp only [List.length_cons] at hf hs hc ht
    have hs1 : cur < ram.size := by omega
    have hc1 : (cur + 1) % 4294967296 = cur + 1 := Nat.mod_eq_of_lt (by omega)
    have ht1 : (total + 1) % 4294967296 = total + 1 := Nat.mod_eq_of_lt (by omega)
    have step := ih n 1 (ram.poke cur b.val) (cur + 1) (total + 1) (by omega)
      (by simp [ram_t.poke]; omega) (by omega) (by omega)
    simp only [fresh] at step
    simp [load_loop, fresh, ifstream.good, ifstream.read, ifstream.toBool, ram_t.store8, hs1,
      blit]
    rw [hc1, ht1, step]
    congr 3
    omega

/-- The loop on a good stream whose payload ends exactly at the capacity: the
store that follows the failed read is out of range. -/
theorem load_loop_overrun (stale : byte) (payload : List byte) :
    ∀ (fuel gc : Nat) (ram : ram_t) (cur total : Nat),
      payload.length + 1 ≤ fuel → cur + payload.length = ram.size →
      cur + payload.length < 2 ^ 32 →
      load_loop fuel stale (fresh payload gc) ram cur total
        = some (.error (.out_of_range ram.size)) := by
  induction payload with
  | nil =>
    intro fuel gc ram cur total hf hs hc
    obtain ⟨n, rfl⟩ : ∃ n, fuel = n + 1 := ⟨fuel - 1, by simp at hf; omega⟩
    simp at hs
    simp [load_loop, fresh, ifstream.good, ifstream.read, ram_t.store8, hs]
  | cons b bs ih =>
    intro fuel gc ram cur total hf hs hc
    obtain ⟨n, rfl⟩ : ∃ n, fuel = n + 1 := ⟨fuel - 1, by simp at hf; omega⟩
    simp only [List.length_cons] at hf hs hc
    have hs1 : cur < ram.size := by omega
    have hc1 : (cur + 1) % 4294967296 = cur + 1 := Nat.mod_eq_of_lt (by omega)
    have step := ih n 1 (ram.poke cur b.val) (cur + 1) ((total + 1) % 4294967296) (by omega)
      (by simp [ram_t.poke]; omega) (by omega)
    simp only [fresh] at step
    simp [load_loop, fresh, ifstream.good, ifstream.read, ifstream.toBool, ram_t.store8, hs1]
    rw [hc1, step]
    rfl

/-- The only exception the loop raises is the out-of-range fault of `store8`. -/
theorem load_loop_error_kind (stale : byte) :
    ∀ (fuel : Nat) (f : ifstream) (ram : ram_t) (cur total : Nat) (e : error),
      load_loop fuel stale f ram cur total = some (.error e) → ∃ a, e = .out_of_range a := by
  intro fuel
  induction fuel with
  | zero => intro f ram cur total e h; simp [load_loop] at h
  | succ n ih =>
    intro f ram cur total e h
    unfold load_loop at h
    by_cases hg : f.good = true
    · by_cases hs : cur < ram.size
      · simp only [hg, if_true, ram_t.store8, hs] at h
        exact ih _ _ _ _ _ h
      · simp only [hg, if_true, ram_t.store8, hs, if_false] at h
        exact ⟨cur, by simpa using h.symm⟩
    · simp [hg] at h

theorem decode_le32_lt (b0 b1 b2 b3 : byte) : decode_le32 b0 b1 b2 b3 < 2 ^ 32 := by
  have h0 := b0.isLt
  have h1 := b1.isLt
  have h2 := b2.isLt
  have h3 := b3.isLt
  unfold decode_le32
  omega

/-- With no override and at least four bytes, `read_bin_file` is the loop run
on the bytes behind the header, started at the decoded address. -/
theorem read_bin_file_header (b0 b1 b2 b3 : byte) (payload : List byte) (ram : ram_t)
    (addr : Nat) (stale : byte) :
    read_bin_file (some (b0 :: b1 :: b2 :: b3 :: payload)) ram false addr stale =
      match load_loop (payload.length + 2) stale (fresh payload 4) ram
          (decode_le32 b0 b1 b2 b3) 0 with
      | none => none
      | some (.error e) => some (.error e)
      | some (.ok (ram1, total)) =>
        some (.ok { ram := ram1, start_addr := decode_le32 b0 b1 b2 b3,
                    total_bytes_read := total }) := by
  simp [read_bin_file, read_start_addr, ifstream.open, ifstream.bad, ifstream.read,
    ifstream.good, fresh]

/-- With an override and a file that opens, `read_bin_file` is the loop run on
the whole file, started at the override address. -/
theorem read_bin_file_override (image : List byte) (ram : ram_t) (addr : Nat) (stale : byte) :
    read_bin_file (some image) ram true addr stale =
      match load_loop (image.length + 2) stale (fresh image 0) ram addr 0 with
      | none => none
      | some (.error e) => some (.error e)
      | some (.ok (ram1, total)) =>
        some (.ok { ram := ram1, start_addr := addr, total_bytes_read := total }) := by
  simp [read_bin_file, read_start_addr, ifstream.open, ifstream.bad, fresh]

/-- Loading with a header when the payload and the byte behind it fit. -/
theorem read_bin_file_header_fits (b0 b1 b2 b3 : byte) (payload : List byte) (ram : ram_t)
    (addr : Nat) (stale : byte)
    (hs : decode_le32 b0 b1 b2 b3 + payload.length < ram.size)
    (hc : decode_le32 b0 b1 b2 b3 + payload.length < 2 ^ 32) :
    read_bin_file (some (b0 :: b1 :: b2 :: b3 :: payload)) ram false addr stale =
      some (.ok { ram := blit ram (decode_le32 b0 b1 b2 b3) stale payload,
                  start_addr := decode_le32 b0 b1 b2 b3,
                  total_bytes_read := payload.length }) := by
  rw [read_bin_file_header,
    load_loop_fits stale payload _ 4 ram _ 0 (Nat.le_refl _) hs hc (by omega)]
  simp

/-- Loading with an override when the file and the byte behind it fit. -/
theorem read_bin_file_override_fits (image : List byte) (ram : ram_t) (addr : Nat)
    (stale : byte) (hs : addr + image.length < ram.size) (hc : addr + image.length < 2 ^ 32) :
    read_bin_file (some image) ram true addr stale =
      some (.ok { ram := blit ram addr stale image, start_addr := addr,
                  total_bytes_read := image.length }) := by
  rw [read_bin_file_override,
    load_loop_fits stale image _ 0 ram _ 0 (Nat.le_refl _) hs hc (by omega)]
  simp


/-! ## The loader: totality, frame and size -/

/-- The loop returns whenever the iteration bound exceeds the number of unread
bytes by two: the bound of `read_bin_file` is never exhausted. -/
theorem load_loop_total (stale : byte) :
    ∀ (fuel : Nat) (f : ifstream) (ram : ram_t) (cur total : Nat),
      (if f.good then f.data.length + 2 else 1) ≤ fuel →
      load_loop fuel stale f ram cur total ≠ none := by
  intro fuel
  induction fuel with
  | zero =>
    intro f ram cur total h
    split at h <;> omega
  | succ n ih =>
    intro f ram cur total h
    unfold load_loop
    by_cases hg : f.good = true
    · simp only [hg, if_true] at h ⊢
      by_cases hs : cur < ram.size
      · simp only [ram_t.store8, hs, if_true]
        apply ih
        simp only [ifstream.read, hg, if_true]
        by_cases hl : 1 ≤ f.data.length
        · simp only [hl, if_true]
          have hgood : ifstream.good { f with data := List.drop 1 f.data, gcount := 1 } = true := by
            simpa [ifstream.good] using hg
          simp only [hgood, if_true, List.length_drop]
          omega
        · simp [hl, ifstream.good]
          omega
      · simp [ram_t.store8, hs]
    · simp [hg]

/-- The function `read_bin_file` always returns or throws. -/
theorem read_bin_file_total (file : Option (List byte)) (ram : ram_t) (ov : Bool) (addr : Nat)
    (stale : byte) : read_bin_file file ram ov addr stale ≠ none := by
  unfold read_bin_file
  by_cases hb : (ifstream.open file).bad = true
  · simp [hb]
  · simp only [hb]
    cases hh : read_start_addr (ifstream.open file) ov addr with
    | error e => simp
    | ok p =>
      obtain ⟨start, f1⟩ := p
      have ht := load_loop_total stale (f1.data.length + 2) f1 ram start 0 (by split <;> omega)
      cases hl : load_loop (f1.data.length + 2) stale f1 ram start 0 with
      | none => exact absurd hl ht
      | some r =>
        cases r with
        | error e => simp [hl]
        | ok q => simp [hl]

/-- The loop never changes the capacity. -/
theorem load_loop_size (stale : byte) :
    ∀ (fuel : Nat) (f : ifstream) (ram : ram_t) (cur total : Nat) (r : ram_t) (n : Nat),
      load_loop fuel stale f ram cur total = some (.ok (r, n)) → r.size = ram.size := by
  intro fuel
  induction fuel with
  | zero => intro f ram cur total r n h; simp [load_loop] at h
  | succ k ih =>
    intro f ram cur total r n h
    unfold load_loop at h
    by_cases hg : f.good = true
    · by_cases hs : cur < ram.size
      · simp only [hg, if_true, ram_t.store8, hs] at h
        have := ih _ _ _ _ _ _ h
        simpa [ram_t.poke] using this
      · simp [hg, ram_t.store8, hs] at h
    · simp only [hg] at h
      simp at h
      rw [← h.1]

/-- A successful load leaves a memory of the same capacity. -/
theorem read_bin_file_size (file : Option (List byte)) (ram : ram_t) (ov : Bool) (addr : Nat)
    (stale : byte) (rep : load_report)
    (h : read_bin_file file ram ov addr stale = some (.ok rep)) : rep.ram.size = ram.size := by
  unfold read_bin_file at h
  by_cases hb : (ifstream.open file).bad = true
  · simp [hb] at h
  · simp only [hb] at h
    cases hh : read_start_addr (ifstream.open file) ov addr with
    | error e => simp [hh] at h
    | ok p =>
      obtain ⟨start, f1⟩ := p
      cases hl : load_loop (f1.data.length + 2) stale f1 ram start 0 with
      | none => simp [hh, hl] at h
      | some r =>
        cases r with
        | error e => simp [hh, hl] at h
        | ok q =>
          obtain ⟨ram1, total⟩ := q
          simp [hh, hl] at h
          rw [← h]
          exact load_loop_size stale _ _ _ _ _ _ _ hl

/-- The only exception of the header block is the truncated-header one. -/
theorem read_start_addr_error (f : ifstream) (ov : Bool) (addr : Nat) (e : error)
    (h : read_start_addr f ov addr = .error e) : e = .premature_eof := by
  unfold read_start_addr at h
  cases ov with
  | true => simp at h
  | false =>
    cases hg : (f.read 4).2.good with
    | false =>
      simp [hg] at h
      exact h.symm
    | true =>
      simp only [hg, Bool.not_false, Bool.not_true, if_true, Bool.false_eq_true, if_false] at h
      split at h
      · cases h
      · cases h
        rfl

/-! ## The loader: what the claims say -/

/-- Supporting fact for C1: with no override, whenever the payload and the one
byte behind it lie inside the memory, the load succeeds, every payload byte is
at its place, and the report gives the header address and the payload length. -/
theorem read_bin_file_header_places_payload (b0 b1 b2 b3 : byte) (payload : List byte)
    (ram : ram_t) (addr : Nat) (stale : byte)
    (hs : decode_le32 b0 b1 b2 b3 + payload.length < ram.size)
    (hc : decode_le32 b0 b1 b2 b3 + payload.length < 2 ^ 32) :
    ∃ rep, read_bin_file (some (b0 :: b1 :: b2 :: b3 :: payload)) ram false addr stale
        = some (.ok rep) ∧
      rep.start_addr = decode_le32 b0 b1 b2 b3 ∧ rep.total_bytes_read = payload.length ∧
      ∀ (i : Nat) (h : i < payload.length),
        rep.ram.load8 (decode_le32 b0 b1 b2 b3 + i) = .ok (payload[i]).val := by
  refine ⟨_, read_bin_file_header_fits b0 b1 b2 b3 payload ram addr stale hs hc, rfl, rfl, ?_⟩
  intro i h
  have hlt : decode_le32 b0 b1 b2 b3 + i < ram.size := by omega
  simp [ram_t.load8, blit_size, hlt, blit_mem_payload _ _ _ _ i h]

/-- Supporting fact for C1: with no override, whenever the payload ends exactly
at the capacity, the load fails with the out-of-range fault of the store that
follows the last payload byte. -/
theorem read_bin_file_header_overrun (b0 b1 b2 b3 : byte) (payload : List byte)
    (ram : ram_t) (addr : Nat) (stale : byte)
    (hs : decode_le32 b0 b1 b2 b3 + payload.length = ram.size)
    (hc : decode_le32 b0 b1 b2 b3 + payload.length < 2 ^ 32) :
    read_bin_file (some (b0 :: b1 :: b2 :: b3 :: payload)) ram false addr stale
      = some (.error (.out_of_range ram.size)) := by
  rw [read_bin_file_header,
    load_loop_overrun stale payload _ 4 ram _ 0 (by omega) hs hc]

/-- C1 (the code departs from the claim): a memory of `0x100000` bytes and an
image whose header is `0x000FFFFC` followed by four payload bytes, so that the
payload occupies the last four bytes of the memory. The load does not succeed:
it ends with the out-of-range fault at address `0x100000`, raised by the store
that the loop performs after the read behind the last byte has failed. -/
theorem read_bin_file_payload_up_to_capacity (stale : byte) :
    read_bin_file (some [0xFC, 0xFF, 0x0F, 0x00, 1, 2, 3, 4]) (zero_ram 0x100000) false 0 stale
      = some (.error (.out_of_range 0x100000)) :=
  read_bin_file_header_overrun 0xFC 0xFF 0x0F 0x00 [1, 2, 3, 4] (zero_ram 0x100000) 0 stale
    (by decide) (by decide)

/-- C2 (as stated, refuted): a three-byte file loaded with the override address
14 into a memory of 16 bytes. The bytes would occupy addresses 14, 15 and 16;
the load fails with the out-of-range fault at 16, so nothing is reported. -/
theorem read_bin_file_override_beyond_capacity :
    read_bin_file (some [1, 2, 3]) (zero_ram 16) true 14 0
      = some (.error (.out_of_range 16)) :=
  rfl

/-- C2 (amended): for every file of `n` bytes and every override address `X`
with `X + n` below the capacity and below `2 ^ 32`, the load succeeds, the
first four bytes are not taken as a header: byte `i` of the file is at
`X + i` for every `i < n`, the reported start address is `X` and the reported
total is `n`. -/
theorem read_bin_file_override_places_file (image : List byte) (ram : ram_t) (X : Nat)
    (stale : byte) (hs : X + image.length < ram.size) (hc : X + image.length < 2 ^ 32) :
    ∃ rep, read_bin_file (some image) ram true X stale = some (.ok rep) ∧
      rep.start_addr = X ∧ rep.total_bytes_read = image.length ∧
      ∀ (i : Nat) (h : i < image.length),
        rep.ram.load8 (X + i) = .ok (image[i]).val := by
  refine ⟨_, read_bin_file_override_fits image ram X stale hs hc, rfl, rfl, ?_⟩
  intro i h
  have hlt : X + i < ram.size := by omega
  simp [ram_t.load8, blit_size, hlt, blit_mem_payload _ _ _ _ i h]

/-- C2 (amended), at a five-byte file placed at `0x200` in a memory of `0x1000`
bytes. -/
theorem read_bin_file_override_places_file_witness :
    ∃ rep, read_bin_file (some [1, 2, 3, 4, 5]) (zero_ram 0x1000) true 0x200 0 = some (.ok rep) ∧
      rep.start_addr = 0x200 ∧ rep.total_bytes_read = [1, 2, 3, 4, (5 : byte)].length ∧
      ∀ (i : Nat) (h : i < [1, 2, 3, 4, (5 : byte)].length),
        rep.ram.load8 (0x200 + i) = .ok ([1, 2, 3, 4, (5 : byte)][i]).val :=
  read_bin_file_override_places_file [1, 2, 3, 4, 5] (zero_ram 0x1000) 0x200 0
    (by decide) (by decide)

/-- Supporting fact for C3: when the load succeeds under the conditions of the
two facts above, every byte outside the closed range from the start address to
the address behind the payload keeps its value. -/
theorem read_bin_file_override_frame (image : List byte) (ram : ram_t) (X : Nat)
    (stale : byte) (hs : X + image.length < ram.size) (hc : X + image.length < 2 ^ 32) :
    ∃ rep, read_bin_file (some image) ram true X stale = some (.ok rep) ∧
      (∀ a, a < X ∨ X + image.length < a → rep.ram.mem a = ram.mem a) ∧
      rep.ram.mem (X + image.length) = stale.val ∧
      rep.ram.written.length = ram.written.length + image.length + 1 := by
  refine ⟨_, read_bin_file_override_fits image ram X stale hs hc, ?_, ?_, ?_⟩
  · intro a ha
    rcases ha with ha | ha
    · exact blit_mem_below stale image ram X a ha
    · exact blit_mem_above stale image ram X a ha
  · exact blit_mem_end stale image ram X
  · exact blit_written_length stale image ram X

/-- C3 (the code departs from the claim): an image that is a header only (start
address 0, empty payload), loaded with no override into a zeroed memory of 16
bytes. The load reports 0 bytes, yet one store was performed, at address 0, and
the byte there now holds the content of the uninitialised local `byte`. -/
theorem read_bin_file_empty_payload_stores (stale : byte) :
    ∃ rep, read_bin_file (some [0, 0, 0, 0]) (zero_ram 16) false 0 stale = some (.ok rep) ∧
      rep.start_addr = 0 ∧ rep.total_bytes_read = 0 ∧ rep.ram.written = [0] ∧
      rep.ram.mem 0 = stale.val ∧ (zero_ram 16).mem 0 = 0 := by
  refine ⟨_, rfl, rfl, rfl, rfl, ?_, rfl⟩
  show stale.val % 256 = stale.val
  exact Nat.mod_eq_of_lt stale.isLt

/-- Supporting fact for C4: for a file that opens and no override, the
truncated-header error is raised exactly when the file has fewer than four
bytes. -/
theorem read_bin_file_premature_iff (image : List byte) (ram : ram_t) (addr : Nat)
    (stale : byte) :
    read_bin_file (some image) ram false addr stale = some (.error .premature_eof)
      ↔ image.length < 4 := by
  match image with
  | [] => simp [read_bin_file, read_start_addr, ifstream.open, ifstream.bad, ifstream.read,
      ifstream.good]
  | [_] => simp [read_bin_file, read_start_addr, ifstream.open, ifstream.bad, ifstream.read,
      ifstream.good]
  | [_, _] => simp [read_bin_file, read_start_addr, ifstream.open, ifstream.bad, ifstream.read,
      ifstream.good]
  | [_, _, _] => simp [read_bin_file, read_start_addr, ifstream.open, ifstream.bad,
      ifstream.read, ifstream.good]
  | b0 :: b1 :: b2 :: b3 :: payload =>
    rw [read_bin_file_header]
    constructor
    · intro h
      cases hl : load_loop (payload.length + 2) stale (fresh payload 4) ram
          (decode_le32 b0 b1 b2 b3) 0 with
      | none => simp [hl] at h
      | some r =>
        cases r with
        | error e =>
          obtain ⟨a, ha⟩ := load_loop_error_kind stale _ _ _ _ _ _ hl
          simp [hl, ha] at h
        | ok q => simp [hl] at h
    · intro h
      simp at h
      omega

/-- Supporting fact for C4: with an override the truncated-header error is
never raised. -/
theorem read_bin_file_override_never_premature (file : Option (List byte)) (ram : ram_t)
    (addr : Nat) (stale : byte) :
    read_bin_file file ram true addr stale ≠ some (.error .premature_eof) := by
  intro h
  unfold read_bin_file at h
  by_cases hb : (ifstream.open file).bad = true
  · simp [hb] at h
  · simp only [hb, read_start_addr] at h
    simp only [Bool.not_true, Bool.false_eq_true, if_false] at h
    cases hl : load_loop ((ifstream.open file).data.length + 2) stale (ifstream.open file)
        ram addr 0 with
    | none => simp [hl] at h
    | some r =>
      cases r with
      | error e =>
        obtain ⟨a, ha⟩ := load_loop_error_kind stale _ _ _ _ _ _ hl
        simp [hl, ha] at h
      | ok q => simp [hl] at h

/-- C4 (the code departs from the claim): an image of exactly four bytes, whose
header decodes to address 16, loaded with no override into a memory of 16
bytes. It does not load with 0 payload bytes: the store that the loop performs
after the failed read raises the out-of-range fault at address 16. -/
theorem read_bin_file_four_byte_image_faults (stale : byte) :
    read_bin_file (some [0x10, 0, 0, 0]) (zero_ram 16) false 0 stale
      = some (.error (.out_of_range 16)) :=
  read_bin_file_header_overrun 0x10 0 0 0 [] (zero_ram 16) 0 stale (by decide) (by decide)

/-- C5 (the code departs from the claim): a file that cannot be opened. The
test `f.bad()` does not see the failed open. With an override the function
returns normally, the memory untouched, reporting 0 bytes at the override
address; with no override the error raised is the truncated-header one. The
error "Unable to open the binary file." is raised for no file at all. -/
theorem read_bin_file_unopened (ram : ram_t) (X : Nat) (stale : byte) :
    read_bin_file none ram true X stale
        = some (.ok { ram := ram, start_addr := X, total_bytes_read := 0 }) ∧
    read_bin_file none ram false X stale = some (.error .premature_eof) ∧
    ∀ (file : Option (List byte)) (ov : Bool),
      read_bin_file file ram ov X stale ≠ some (.error .unable_to_open) := by
  refine ⟨rfl, rfl, ?_⟩
  intro file ov h
  unfold read_bin_file at h
  have hb : (ifstream.open file).bad = false := by cases file <;> rfl
  simp only [hb, Bool.false_eq_true, if_false] at h
  cases hh : read_start_addr (ifstream.open file) ov X with
  | error e =>
    simp only [hh] at h
    have he : e = .premature_eof := read_start_addr_error _ _ _ _ hh
    simp [he] at h
  | ok p =>
    obtain ⟨start, f1⟩ := p
    simp only [hh] at h
    cases hl : load_loop (f1.data.length + 2) stale f1 ram start 0 with
    | none => simp [hl] at h
    | some r =>
      cases r with
      | error e =>
        obtain ⟨a, ha⟩ := load_loop_error_kind stale _ _ _ _ _ _ hl
        simp [hl, ha] at h
      | ok q => simp [hl] at h

/-! ## The host program: memory-mapped constants -/

theorem put32_size (ram : ram_t) (addr value : Nat) : (ram.put32 addr value).size = ram.size :=
  rfl

theorem store32_ok (ram : ram_t) (addr value : Nat) (h : addr + 4 ≤ ram.size) :
    ram.store32 addr value = .ok (ram.put32 addr value) := by
  simp [ram_t.store32, h]

/-- A 32-bit store followed by a 32-bit load at the same address returns the
stored value. -/
theorem load32_put32_same (ram : ram_t) (addr value : Nat) (h : addr + 4 ≤ ram.size) :
    (ram.put32 addr value).load32 addr = .ok (value % 2 ^ 32) := by
  have h1 : addr ≠ addr + 1 := by omega
  have h2 : addr ≠ addr + 2 := by omega
  have h3 : addr ≠ addr + 3 := by omega
  have e : value % 256 + 2 ^ 8 * (value / 2 ^ 8 % 256) + 2 ^ 16 * (value / 2 ^ 16 % 256) +
      2 ^ 24 * (value / 2 ^ 24 % 256) = value % 2 ^ 32 := by omega
  unfold ram_t.load32
  rw [put32_size, if_pos h]
  simp [ram_t.put32, ram_t.poke, h1, h2, h3]
  omega

/-- A 32-bit store does not change what a 32-bit load reads from a disjoint
word. -/
theorem load32_put32_disjoint (ram : ram_t) (a b value : Nat)
    (h : a + 4 ≤ b ∨ b + 4 ≤ a) :
    (ram.put32 b value).load32 a = ram.load32 a := by
  have e : ∀ x, a ≤ x → x < a + 4 → (ram.put32 b value).mem x = ram.mem x := by
    intro x hx1 hx2
    have n0 : x ≠ b := by omega
    have n1 : x ≠ b + 1 := by omega
    have n2 : x ≠ b + 2 := by omega
    have n3 : x ≠ b + 3 := by omega
    simp [ram_t.put32, ram_t.poke, n0, n1, n2, n3]
  unfold ram_t.load32
  rw [put32_size, e a (by omega) (by omega), e (a + 1) (by omega) (by omega),
    e (a + 2) (by omega) (by omega), e (a + 3) (by omega) (by omega)]

/-- When the configured size is the capacity and covers the window, the six
stores of `populate_mmio` all succeed. -/
theorem populate_mmio_ok (ram_size : Nat) (ram : ram_t) (hs : ram.size = ram_size)
    (h : 0xc0000040 ≤ ram_size) :
    populate_mmio ram_size ram = .ok
      ((((((ram.put32 0xc0000008 70000000).put32 0xc000000c 131072).put32 0xc0000014 1920).put32
        0xc0000018 1080).put32 0xc000001c 3932160).put32 0xc0000028 4) := by
  have hg : ram_size ≥ (MMIO_START + 64) % 2 ^ 32 := by
    simp only [MMIO_START]
    omega
  unfold populate_mmio
  rw [if_pos hg]
  simp only [MMIO_START, bind, Except.bind]
  rw [store32_ok ram _ _ (by norm_num; omega)]
  simp only []
  rw [store32_ok _ _ _ (by rw [put32_size]; norm_num; omega)]
  simp only []
  rw [store32_ok _ _ _ (by simp only [put32_size]; norm_num; omega)]
  simp only []
  rw [store32_ok _ _ _ (by simp only [put32_size]; norm_num; omega)]
  simp only []
  rw [store32_ok _ _ _ (by simp only [put32_size]; norm_num; omega)]
  simp only []
  rw [store32_ok _ _ _ (by simp only [put32_size]; norm_num; omega)]
  norm_num

/-- Without the guard nothing is stored; the function never throws when the
configured size is the capacity. -/
theorem populate_mmio_small (ram_size : Nat) (ram : ram_t) (h : ram_size < 0xc0000040) :
    populate_mmio ram_size ram = .ok ram := by
  have hg : ¬ ram_size ≥ (MMIO_START + 64) % 2 ^ 32 := by
    simp only [MMIO_START]
    omega
  unfold populate_mmio
  rw [if_neg hg]

/-- C10: whenever the configured RAM covers the window (capacity at least
`0xc0000040`), the memory that `main` hands to the CPU after loading any image
answers 32-bit loads at `0xc0000000 + 8, + 12, + 20, + 24, + 28, + 40` with
70000000, 131072, 1920, 1080, 3932160 and 4, whatever the image put there. -/
theorem populate_mmio_constants (file : Option (List byte)) (ram_size : Nat) (init : Nat → Nat)
    (ov : Bool) (addr : Nat) (stale : byte) (rep : load_report)
    (hl : read_bin_file file (ram_t.create ram_size init) ov addr stale = some (.ok rep))
    (h : 0xc0000040 ≤ ram_size) :
    ∃ ram1, populate_mmio ram_size rep.ram = .ok ram1 ∧
      ram1.load32 (0xc0000000 + 8) = .ok 70000000 ∧
      ram1.load32 (0xc0000000 + 12) = .ok 131072 ∧
      ram1.load32 (0xc0000000 + 20) = .ok 1920 ∧
      ram1.load32 (0xc0000000 + 24) = .ok 1080 ∧
      ram1.load32 (0xc0000000 + 28) = .ok 3932160 ∧
      ram1.load32 (0xc0000000 + 40) = .ok 4 := by
  have hs : rep.ram.size = ram_size := by
    rw [read_bin_file_size file _ ov addr stale rep hl]
    rfl
  have hsz : 0xc0000040 ≤ rep.ram.size := by omega
  refine ⟨_, populate_mmio_ok ram_size rep.ram hs h, ?_, ?_, ?_, ?_, ?_, ?_⟩
  · rw [load32_put32_disjoint _ _ _ _ (by norm_num), load32_put32_disjoint _ _ _ _ (by norm_num),
      load32_put32_disjoint _ _ _ _ (by norm_num), load32_put32_disjoint _ _ _ _ (by norm_num),
      load32_put32_disjoint _ _ _ _ (by norm_num)]
    exact load32_put32_same rep.ram 0xc0000008 70000000 (by omega)
  · rw [load32_put32_disjoint _ _ _ _ (by norm_num), load32_put32_disjoint _ _ _ _ (by norm_num),
      load32_put32_disjoint _ _ _ _ (by norm_num), load32_put32_disjoint _ _ _ _ (by norm_num)]
    exact load32_put32_same _ 0xc000000c 131072 (by simp only [put32_size]; omega)
  · rw [load32_put32_disjoint _ _ _ _ (by norm_num), load32_put32_disjoint _ _ _ _ (by norm_num),
      load32_put32_disjoint _ _ _ _ (by norm_num)]
    exact load32_put32_same _ 0xc0000014 1920 (by simp only [put32_size]; omega)
  · rw [load32_put32_disjoint _ _ _ _ (by norm_num), load32_put32_disjoint _ _ _ _ (by norm_num)]
    exact load32_put32_same _ 0xc0000018 1080 (by simp only [put32_size]; omega)
  · rw [load32_put32_disjoint _ _ _ _ (by norm_num)]
    exact load32_put32_same _ 0xc000001c 3932160 (by simp only [put32_size]; omega)
  · exact load32_put32_same _ 0xc0000028 4 (by simp only [put32_size]; omega)

/-- C10, at a memory of 4 GiB and an image that puts the bytes 1, 2, 3, 4 on
the clock-rate word `0xc0000008`. -/
theorem populate_mmio_constants_witness :
    ∃ ram1, populate_mmio 0x100000000
        (blit (ram_t.create 0x100000000 (fun _ => 0)) 0xc0000008 0 [1, 2, 3, 4]) = .ok ram1 ∧
      ram1.load32 (0xc0000000 + 8) = .ok 70000000 ∧
      ram1.load32 (0xc0000000 + 12) = .ok 131072 ∧
      ram1.load32 (0xc0000000 + 20) = .ok 1920 ∧
      ram1.load32 (0xc0000000 + 24) = .ok 1080 ∧
      ram1.load32 (0xc0000000 + 28) = .ok 3932160 ∧
      ram1.load32 (0xc0000000 + 40) = .ok 4 :=
  populate_mmio_constants (some [0x08, 0, 0, 0xc0, 1, 2, 3, 4]) 0x100000000 (fun _ => 0) false 0 0
    { ram := blit (ram_t.create 0x100000000 (fun _ => 0)) 0xc0000008 0 [1, 2, 3, 4],
      start_addr := 0xc0000008, total_bytes_read := 4 }
    (read_bin_file_header_fits 0x08 0 0 0xc0 [1, 2, 3, 4] (ram_t.create 0x100000000 (fun _ => 0))
      0 0 (by decide) (by decide))
    (by decide)

/-! ## The host program: the CPU task, the graphics block and the join -/

theorem exit_status_append (l1 l2 : List event) (h : ∀ ev ∈ l1, ev.reports = false) :
    exit_status (l1 ++ l2) = exit_status l2 := by
  induction l1 with
  | nil => rfl
  | cons ev rest ih =>
    have hev := h ev (List.mem_cons_self _ _)
    have hrest := ih (fun x hx => h x (List.mem_cons_of_mem _ hx))
    cases ev <;> first
      | (simp [event.reports] at hev; done)
      | (simpa [exit_status] using hrest)

/-- The graphics block always ends with the call of `cpu.terminate()`; before
it there are only frame-counter stores and at most a logged graphics error. -/
theorem gfx_block_shape (g : gfx_env) (ram : ram_t) :
    ∃ pre, gfx_block g ram = pre ++ [event.terminate_requested] ∧
      ∀ ev ∈ pre, (∃ v, ev = event.frame_counter v) ∨ ∃ e, ev = event.gfx_error e := by
  unfold gfx_block
  refine ⟨_, rfl, ?_⟩
  intro ev hev
  rw [List.mem_append] at hev
  rcases hev with hev | hev
  · left
    split at hev
    · simp at hev
    · split at hev
      · simp at hev
      · split at hev
        · simp at hev
        · simp only [List.mem_map] at hev
          obtain ⟨v, _, hv⟩ := hev
          exact ⟨v, hv.symm⟩
  · right
    split at hev
    · rename_i e _
      exact ⟨e, by simpa using hev⟩
    · simp at hev

/-- No event of the graphics block reports a result, ends the process or is
the join. -/
theorem gfx_block_quiet (g : gfx_env) (ram : ram_t) :
    ∀ ev ∈ gfx_block g ram, ev.reports = false ∧ ev ≠ event.joined := by
  obtain ⟨pre, hp, hpre⟩ := gfx_block_shape g ram
  intro ev hev
  rw [hp, List.mem_append] at hev
  rcases hev with hev | hev
  · rcases hpre ev hev with ⟨v, rfl⟩ | ⟨e, rfl⟩ <;> simp [event.reports]
  · simp at hev
    subst hev
    simp [event.reports]

/-- The function `populate_mmio` never throws on a memory whose capacity is the
configured size. -/
theorem populate_mmio_total (ram_size : Nat) (ram : ram_t) (hs : ram.size = ram_size) :
    ∃ ram1, populate_mmio ram_size ram = .ok ram1 := by
  by_cases h : 0xc0000040 ≤ ram_size
  · exact ⟨_, populate_mmio_ok ram_size ram hs h⟩
  · exact ⟨_, populate_mmio_small ram_size ram (by omega)⟩

/-- A run whose image loads starts the CPU task, runs the graphics block if it
is built in and enabled, joins, and then reports. -/
theorem main_run_started (w : world) (c : cmdline) (rep : load_report)
    (hl : load_image w c = some (.ok rep)) :
    ∃ ram1, populate_mmio c.config.ram_size rep.ram = .ok ram1 ∧
      main_run w c =
        [event.ram_created, event.image_loaded, event.mmio_populated, event.cpu_created,
          event.cpu_thread_started]
        ++ (if w.gui_built && c.config.gfx_enabled then gfx_block w.gfx ram1 else [])
        ++ [event.joined]
        ++ after_join w c.config.verbose (cpu_task w c) := by
  have hs : rep.ram.size = c.config.ram_size := by
    unfold load_image at hl
    rw [read_bin_file_size _ _ _ _ _ rep hl]
    rfl
  obtain ⟨ram1, h1⟩ := populate_mmio_total c.config.ram_size rep.ram hs
  refine ⟨ram1, h1, ?_⟩
  unfold main_run
  simp only [hl, h1]

/-- What the statements behind the join report: the exit code is read first,
and the process ends with code 1 if a dump throws and with the exit code of the
task otherwise. -/
theorem after_join_shape (w : world) (verbose : Bool) (t : task_result) :
    ∃ post, after_join w verbose t = event.exit_code_read (to_int32 t.cpu_exit_code) :: post ∧
      (exit_status (after_join w verbose t) = some 1 ∨
        exit_status (after_join w verbose t) = some (to_int32 t.cpu_exit_code)) ∧
      (w.dump_stats_fault = none → w.dump_ram_fault = none →
        exit_status (after_join w verbose t) = some (to_int32 t.cpu_exit_code)) := by
  unfold after_join
  cases verbose <;> cases hs : w.dump_stats_fault <;> cases hr : w.dump_ram_fault <;>
    simp [exit_status]

/-- The exit status of a run whose image loads is the one of the statements
behind the join. -/
theorem main_run_exit_status (w : world) (c : cmdline) (rep : load_report)
    (hl : load_image w c = some (.ok rep)) :
    exit_status (main_run w c) = exit_status (after_join w c.config.verbose (cpu_task w c)) := by
  obtain ⟨ram1, _, hm⟩ := main_run_started w c rep hl
  rw [hm, List.append_assoc, exit_status_append]
  · rfl
  · intro ev hev
    rw [List.mem_append] at hev
    rcases hev with hev | hev
    · simp at hev
      rcases hev with rfl | rfl | rfl | rfl | rfl <;> rfl
    · split at hev
      · exact (gfx_block_quiet _ _ ev hev).1
      · simp at hev

/-- The cast to `int` keeps the 32-bit pattern, and keeps the number itself
below `2 ^ 31`. -/
theorem to_int32_value (s : Nat) (hs : s < 2 ^ 32) :
    to_int32 s % 2 ^ 32 = (s : Int) ∧ (s < 2 ^ 31 → to_int32 s = (s : Int)) ∧
      (2 ^ 31 ≤ s → to_int32 s = (s : Int) - 2 ^ 32) := by
  unfold to_int32
  rw [Nat.mod_eq_of_lt hs]
  refine ⟨?_, ?_, ?_⟩
  · split <;> omega
  · intro h
    rw [if_pos h]
  · intro h
    rw [if_neg (by omega)]

/-- The call of `exit` that ends the statements behind the join: code 1 when
the statistics (in verbose mode) or the RAM dump throw, the exit code of the
task otherwise. -/
theorem after_join_exit_status (w : world) (verbose : Bool) (t : task_result) :
    exit_status (after_join w verbose t)
      = some (if (verbose && w.dump_stats_fault.isSome) || w.dump_ram_fault.isSome then 1
          else to_int32 t.cpu_exit_code) := by
  unfold after_join
  cases verbose <;> cases hs : w.dump_stats_fault <;> cases hr : w.dump_ram_fault <;>
    simp [exit_status]

/-- The trace of a run whose image loads, around the join: nothing before the
join reports or exits, and the first thing behind it is the read of the exit
code that the task left. -/
theorem main_run_around_join (w : world) (c : cmdline) (rep : load_report)
    (hl : load_image w c = some (.ok rep)) :
    ∃ pre post, main_run w c
        = pre ++ event.joined :: event.exit_code_read (to_int32 (cpu_task w c).cpu_exit_code)
            :: post ∧
      ∀ ev ∈ pre, ev.reports = false ∧ ev ≠ event.joined := by
  obtain ⟨ram1, _, hm⟩ := main_run_started w c rep hl
  obtain ⟨post, hp, _⟩ := after_join_shape w c.config.verbose (cpu_task w c)
  refine ⟨[event.ram_created, event.image_loaded, event.mmio_populated, event.cpu_created,
      event.cpu_thread_started]
    ++ (if w.gui_built && c.config.gfx_enabled then gfx_block w.gfx ram1 else []), post, ?_, ?_⟩
  · rw [hm, hp]
    simp only [List.append_assoc, List.singleton_append]
  · intro ev hev
    rw [List.mem_append] at hev
    rcases hev with hev | hev
    · simp at hev
      rcases hev with rfl | rfl | rfl | rfl | rfl <;> simp [event.reports]
    · split at hev
      · exact gfx_block_quiet _ _ ev hev
      · simp at hev

/-- C6: in every run of `main` whose image loads, with `r` what the engine's
`run(max_cycles)` does in that run. If `run` raises a fault `e`, the fault is
caught inside the task, logged, and the exit status that the task leaves is 1,
which is not zero. If `run` returns a 32-bit status `s`, the exit status that
the task leaves is exactly `s`. In both cases the finished flag is set, and the
first thing `main` does behind the join is to read that exit status, as the
`int` with the same 32-bit pattern (the number `s` itself below `2 ^ 31`,
`s - 2 ^ 32` from there on);
nothing before the join reads it or ends the process. -/
theorem cpu_thread_exit_status (w : world) (c : cmdline) (rep : load_report) (s : Nat)
    (e : error) (hs : s < 2 ^ 32) (hl : load_image w c = some (.ok rep)) :
    (w.engine (w.gui_built && c.config.gfx_enabled && w.request_in_time) = .threw e →
      cpu_task w c = { cpu_exit_code := 1, cpu_done := true, logged := some e } ∧
      (cpu_task w c).cpu_exit_code ≠ 0 ∧
      ∃ pre post, main_run w c = pre ++ event.joined :: event.exit_code_read 1 :: post ∧
        ∀ ev ∈ pre, ev.reports = false ∧ ev ≠ event.joined) ∧
    (w.engine (w.gui_built && c.config.gfx_enabled && w.request_in_time) = .returned s →
      cpu_task w c = { cpu_exit_code := s, cpu_done := true, logged := none } ∧
      (∃ pre post, main_run w c
          = pre ++ event.joined :: event.exit_code_read (to_int32 s) :: post ∧
        ∀ ev ∈ pre, ev.reports = false ∧ ev ≠ event.joined) ∧
      to_int32 s % 2 ^ 32 = (s : Int) ∧ (s < 2 ^ 31 → to_int32 s = (s : Int)) ∧
      (2 ^ 31 ≤ s → to_int32 s = (s : Int) - 2 ^ 32)) ∧
    (∀ r, (cpu_thread r).cpu_done = true) := by
  obtain ⟨pre, post, hm, hpre⟩ := main_run_around_join w c rep hl
  refine ⟨?_, ?_, ?_⟩
  · intro he
    have ht : cpu_task w c = { cpu_exit_code := 1, cpu_done := true, logged := some e } := by
      unfold cpu_task
      rw [he]
      rfl
    refine ⟨ht, by rw [ht]; exact Nat.one_ne_zero, pre, post, ?_, hpre⟩
    rw [hm, ht]
    rfl
  · intro hr
    have ht : cpu_task w c = { cpu_exit_code := s, cpu_done := true, logged := none } := by
      unfold cpu_task
      rw [hr]
      simp only [cpu_thread, Nat.mod_eq_of_lt hs]
    obtain ⟨h1, h2, h3⟩ := to_int32_value s hs
    refine ⟨ht, ⟨pre, post, ?_, hpre⟩, h1, h2, h3⟩
    rw [hm, ht]
  · intro r
    cases r <;> rfl

/-- C6, at two headless runs of the sample world: one whose engine returns 7,
one whose engine raises an out-of-bounds fault. -/
theorem cpu_thread_exit_status_witness :
    (cpu_task (sample_world (working_gfx 0) (fun _ => .returned 7)) (sample_cmdline false)
        = { cpu_exit_code := 7, cpu_done := true, logged := none } ∧
      (∃ pre post, main_run (sample_world (working_gfx 0) (fun _ => .returned 7))
          (sample_cmdline false)
          = pre ++ event.joined :: event.exit_code_read (to_int32 7) :: post ∧
        ∀ ev ∈ pre, ev.reports = false ∧ ev ≠ event.joined) ∧
      to_int32 7 % 2 ^ 32 = ((7 : Nat) : Int) ∧ (7 < 2 ^ 31 → to_int32 7 = ((7 : Nat) : Int)) ∧
      (2 ^ 31 ≤ 7 → to_int32 7 = ((7 : Nat) : Int) - 2 ^ 32)) ∧
    (cpu_task (sample_world (working_gfx 0) (fun _ => .threw (.out_of_range 0x5000)))
        (sample_cmdline false)
        = { cpu_exit_code := 1, cpu_done := true, logged := some (.out_of_range 0x5000) } ∧
      (cpu_task (sample_world (working_gfx 0) (fun _ => .threw (.out_of_range 0x5000)))
        (sample_cmdline false)).cpu_exit_code ≠ 0 ∧
      ∃ pre post, main_run (sample_world (working_gfx 0) (fun _ => .threw (.out_of_range 0x5000)))
          (sample_cmdline false)
          = pre ++ event.joined :: event.exit_code_read 1 :: post ∧
        ∀ ev ∈ pre, ev.reports = false ∧ ev ≠ event.joined) :=
  ⟨(cpu_thread_exit_status (sample_world (working_gfx 0) (fun _ => .returned 7))
      (sample_cmdline false)
      { ram := blit (ram_t.create 0x100000000 (fun _ => 0)) 0 0 [1, 2, 3, 4], start_addr := 0,
        total_bytes_read := 4 }
      7 (.out_of_range 0x5000) (by decide)
      (read_bin_file_header_fits 0 0 0 0 [1, 2, 3, 4] (ram_t.create 0x100000000 (fun _ => 0))
        0 0 (by decide) (by decide))).2.1 rfl,
   (cpu_thread_exit_status
      (sample_world (working_gfx 0) (fun _ => .threw (.out_of_range 0x5000)))
      (sample_cmdline false)
      { ram := blit (ram_t.create 0x100000000 (fun _ => 0)) 0 0 [1, 2, 3, 4], start_addr := 0,
        total_bytes_read := 4 }
      7 (.out_of_range 0x5000) (by decide)
      (read_bin_file_header_fits 0 0 0 0 [1, 2, 3, 4] (ram_t.create 0x100000000 (fun _ => 0))
        0 0 (by decide) (by decide))).1 rfl⟩

/-- C7 (as stated, refuted): three abnormal halts of different classes, an
out-of-bounds fault and an illegal-instruction fault raised by the engine and a
truncated image rejected by the loader, all end the process with the same exit
code 1. -/
theorem fault_classes_share_exit_code :
    exit_status (main_run (sample_world (working_gfx 0) (fun _ => .threw (.out_of_range 0x5000)))
      (sample_cmdline false)) = some 1 ∧
    exit_status (main_run
      (sample_world (working_gfx 0) (fun _ => .threw (.illegal_instruction 0x200)))
      (sample_cmdline false)) = some 1 ∧
    exit_status (main_run
      { sample_world (working_gfx 0) (fun _ => .returned 0) with fs := fun _ => some [1, 2] }
      (sample_cmdline false)) = some 1 := by
  decide

/-- C7 (amended): every abnormal halt that goes through an exception ends the
process with exit code 1, which is not zero but is the same for all fault
classes: so it is when the loader throws, and so it is when the image loads
and the engine raises a fault, whatever the fault. -/
theorem fault_exit_code_is_one (w : world) (c : cmdline) (e : error)
    (h : load_image w c = some (.error e) ∨
      ((∃ rep, load_image w c = some (.ok rep)) ∧ ∀ b, w.engine b = .threw e)) :
    exit_status (main_run w c) = some 1 ∧ (1 : Int) ≠ 0 := by
  refine ⟨?_, by decide⟩
  rcases h with h | ⟨⟨rep, hl⟩, he⟩
  · unfold main_run
    simp only [h]
    rfl
  · rw [main_run_exit_status w c rep hl]
    have ht : cpu_task w c = { cpu_exit_code := 1, cpu_done := true, logged := some e } := by
      unfold cpu_task
      rw [he]
      rfl
    obtain ⟨_, _, h1, _⟩ := after_join_shape w c.config.verbose (cpu_task w c)
    rw [ht] at h1 ⊢
    rcases h1 with h1 | h1
    · exact h1
    · rw [h1]
      rfl

/-- C7 (amended), at a run of the sample world whose engine raises an
illegal-instruction fault. -/
theorem fault_exit_code_is_one_witness :
    exit_status (main_run
      (sample_world (working_gfx 0) (fun _ => .threw (.illegal_instruction 0x200)))
      (sample_cmdline false)) = some 1 ∧ (1 : Int) ≠ 0 :=
  fault_exit_code_is_one
    (sample_world (working_gfx 0) (fun _ => .threw (.illegal_instruction 0x200)))
    (sample_cmdline false) (.illegal_instruction 0x200)
    (Or.inr ⟨⟨{ ram := blit (ram_t.create 0x100000000 (fun _ => 0)) 0 0 [1, 2, 3, 4],
                start_addr := 0, total_bytes_read := 4 },
              read_bin_file_header_fits 0 0 0 0 [1, 2, 3, 4]
                (ram_t.create 0x100000000 (fun _ => 0)) 0 0 (by decide) (by decide)⟩,
            fun _ => rfl⟩)

/-- C8 (as stated, refuted): the sample world with graphics enabled, GLFW
failing to initialise and an engine that returns 2 when it is told to
terminate and 0 when it runs to the end. The failure is caught and logged, but
then the termination request is sent, and the exit status is 2; the same
program run headless exits with 0. -/
theorem gfx_failure_requests_termination :
    main_run (sample_world { working_gfx 0 with glfw_init_ok := false }
        (fun t => if t then .returned 2 else .returned 0)) (sample_cmdline true)
      = [event.ram_created, event.image_loaded, event.mmio_populated, event.cpu_created,
          event.cpu_thread_started, event.gfx_error .glfw_init, event.terminate_requested,
          event.joined, event.exit_code_read 2, event.ram_dumped, event.exit 2] ∧
    exit_status (main_run (sample_world { working_gfx 0 with glfw_init_ok := false }
        (fun t => if t then .returned 2 else .returned 0)) (sample_cmdline false)) = some 0 := by
  decide

/-- C8 (amended): in every run with graphics built in and enabled whose image
loads, whatever fails in the graphics block is caught there (an exception is
logged as a graphics error, a missing window is passed over silently) and
nothing but frame-counter stores and that log entry precedes the call of
`cpu.terminate()`, which is always made; then the CPU task is joined, the exit
code the task left is read, and the process ends by one call of `exit`: with 1
when the statistics (in verbose mode) or the RAM dump throw, and otherwise with
the exit code of the task, which is 1 when the engine raised a fault and the
status `run` returned otherwise, the engine having been told to terminate if
the request reached it in time. -/
theorem gfx_failure_contained (w : world) (c : cmdline) (rep : load_report)
    (hl : load_image w c = some (.ok rep)) (hg : w.gui_built = true)
    (he : c.config.gfx_enabled = true) :
    ∃ ram1 pre, populate_mmio c.config.ram_size rep.ram = .ok ram1 ∧
      main_run w c =
        [event.ram_created, event.image_loaded, event.mmio_populated, event.cpu_created,
          event.cpu_thread_started]
        ++ pre ++ [event.terminate_requested, event.joined]
        ++ after_join w c.config.verbose (cpu_thread (w.engine w.request_in_time)) ∧
      (∀ ev ∈ pre, (∃ v, ev = event.frame_counter v) ∨ ∃ e, ev = event.gfx_error e) ∧
      (w.gfx.glfw_init_ok = false → pre = [event.gfx_error .glfw_init]) ∧
      (w.gfx.glfw_init_ok = true → w.gfx.window_created = false → pre = []) ∧
      (w.gfx.glfw_init_ok = true → w.gfx.window_created = true → w.gfx.glad_ok = false →
        pre = [event.gfx_error .glad_init]) ∧
      (w.gfx.glfw_init_ok = true → w.gfx.window_created = true → w.gfx.glad_ok = true →
        ∀ e, (presentation_loop w.gfx.gpu_throws w.gfx.frames 0 ram1 0).failure = some e →
          event.gfx_error e ∈ pre) ∧
      (∃ post, main_run w c =
        [event.ram_created, event.image_loaded, event.mmio_populated, event.cpu_created,
          event.cpu_thread_started]
        ++ pre ++ [event.terminate_requested, event.joined,
          event.exit_code_read (to_int32 (cpu_thread (w.engine w.request_in_time)).cpu_exit_code)]
        ++ post) ∧
      exit_status (main_run w c)
        = some (if (c.config.verbose && w.dump_stats_fault.isSome) || w.dump_ram_fault.isSome
            then 1
            else to_int32 (cpu_thread (w.engine w.request_in_time)).cpu_exit_code) ∧
      (∀ s, s < 2 ^ 31 → w.engine w.request_in_time = .returned s →
        (c.config.verbose = true → w.dump_stats_fault = none) → w.dump_ram_fault = none →
        exit_status (main_run w c) = some (s : Int)) ∧
      (∀ e, w.engine w.request_in_time = .threw e → exit_status (main_run w c) = some 1) ∧
      ((c.config.verbose = true ∧ w.dump_stats_fault ≠ none) ∨ w.dump_ram_fault ≠ none →
        exit_status (main_run w c) = some 1) := by
  obtain ⟨ram1, h1, hm⟩ := main_run_started w c rep hl
  have ht : cpu_task w c = cpu_thread (w.engine w.request_in_time) := by
    simp [cpu_task, hg, he]
  have hx : exit_status (main_run w c)
      = some (if (c.config.verbose && w.dump_stats_fault.isSome) || w.dump_ram_fault.isSome
          then 1
          else to_int32 (cpu_thread (w.engine w.request_in_time)).cpu_exit_code) := by
    rw [main_run_exit_status w c rep hl, ht, after_join_exit_status]
  obtain ⟨post, hpost, _⟩ :=
    after_join_shape w c.config.verbose (cpu_thread (w.engine w.request_in_time))
  have hmain : main_run w c =
      [event.ram_created, event.image_loaded, event.mmio_populated, event.cpu_created,
        event.cpu_thread_started]
      ++ (match (if !w.gfx.glfw_init_ok then ([], some error.glfw_init)
        else if !w.gfx.window_created then ([], none)
        else if !w.gfx.glad_ok then ([], some error.glad_init)
        else
          ((presentation_loop w.gfx.gpu_throws w.gfx.frames 0 ram1 0).counter_values.map
              event.frame_counter,
            (presentation_loop w.gfx.gpu_throws w.gfx.frames 0 ram1 0).failure) :
          List event × Option error) with
        | (evs, some e) => evs ++ [event.gfx_error e]
        | (evs, none) => evs) ++ [event.terminate_requested, event.joined]
      ++ after_join w c.config.verbose (cpu_thread (w.engine w.request_in_time)) := by
    rw [hm, ht]
    simp only [hg, he, Bool.and_self, if_true, gfx_block]
    cases w.gfx.glfw_init_ok <;> cases w.gfx.window_created <;> cases w.gfx.glad_ok <;> simp
    cases (presentation_loop w.gfx.gpu_throws w.gfx.frames 0 ram1 0).failure <;> simp
  refine ⟨ram1, _, h1, hmain, ?_, ?_, ?_, ?_, ?_, ⟨post, ?_⟩, hx, ?_, ?_, ?_⟩
  · intro ev hev
    cases h0 : w.gfx.glfw_init_ok <;> cases h2 : w.gfx.window_created <;>
      cases h3 : w.gfx.glad_ok <;> simp [h0, h2, h3] at hev <;>
      first
        | exact Or.inr ⟨_, hev⟩
        | skip
    cases hf : (presentation_loop w.gfx.gpu_throws w.gfx.frames 0 ram1 0).failure with
    | none =>
      simp [hf] at hev
      obtain ⟨v, _, hv⟩ := hev
      exact Or.inl ⟨v, hv.symm⟩
    | some e =>
      simp [hf] at hev
      rcases hev with ⟨v, _, hv⟩ | hev
      · exact Or.inl ⟨v, hv.symm⟩
      · exact Or.inr ⟨e, hev⟩
  · intro h0
    simp [h0]
  · intro h0 h2
    simp [h0, h2]
  · intro h0 h2 h3
    simp [h0, h2, h3]
  · intro h0 h2 h3 e hf
    simp [h0, h2, h3, hf]
  · rw [hmain, hpost]
    simp only [List.append_assoc, List.cons_append, List.nil_append]
  · intro s hs hr hst hram
    rw [hx, hr]
    have hc : ((c.config.verbose && w.dump_stats_fault.isSome) || w.dump_ram_fault.isSome)
        = false := by
      rw [hram]
      cases hv : c.config.verbose
      · rfl
      · rw [hst hv]
        rfl
    rw [hc]
    have h32 : s < 2 ^ 32 := by omega
    simp only [cpu_thread, Nat.mod_eq_of_lt h32, (to_int32_value s h32).2.1 hs]
    rfl
  · intro e hr
    rw [hx, hr]
    split <;> rfl
  · intro hf
    rw [hx]
    have hc : ((c.config.verbose && w.dump_stats_fault.isSome) || w.dump_ram_fault.isSome)
        = true := by
      rcases hf with ⟨hv, hf⟩ | hf
      · rw [hv]
        cases hd : w.dump_stats_fault with
        | none => exact absurd hd hf
        | some e => rfl
      · cases hd : w.dump_ram_fault with
        | none => exact absurd hd hf
        | some e => simp
    rw [hc]
    rfl

/-- C8 (amended), at the sample world with graphics enabled, GLFW failing to
initialise and an engine that returns 2 when it is told to terminate and 0 when
it runs to the end: the failure is logged, the termination request is sent, the
task is joined, its exit code 2 is read and the process exits with 2. -/
theorem gfx_failure_contained_witness :
    main_run (sample_world { working_gfx 0 with glfw_init_ok := false }
        (fun t => if t then .returned 2 else .returned 0)) (sample_cmdline true)
      = [event.ram_created, event.image_loaded, event.mmio_populated, event.cpu_created,
          event.cpu_thread_started]
        ++ [event.gfx_error .glfw_init] ++ [event.terminate_requested, event.joined]
        ++ after_join (sample_world { working_gfx 0 with glfw_init_ok := false }
            (fun t => if t then .returned 2 else .returned 0)) false
            (cpu_thread (.returned 2)) ∧
    exit_status (main_run (sample_world { working_gfx 0 with glfw_init_ok := false }
        (fun t => if t then .returned 2 else .returned 0)) (sample_cmdline true))
      = some ((2 : Nat) : Int) := by
  obtain ⟨ram1, pre, _, hm, _, hpre, _, _, _, _, _, hs, _, _⟩ :=
    gfx_failure_contained
      (sample_world { working_gfx 0 with glfw_init_ok := false }
        (fun t => if t then .returned 2 else .returned 0))
      (sample_cmdline true)
      { ram := blit (ram_t.create 0x100000000 (fun _ => 0)) 0 0 [1, 2, 3, 4], start_addr := 0,
        total_bytes_read := 4 }
      (read_bin_file_header_fits 0 0 0 0 [1, 2, 3, 4] (ram_t.create 0x100000000 (fun _ => 0)) 0 0
        (by decide) (by decide))
      rfl rfl
  refine ⟨?_, hs 2 (by decide) rfl (fun h => rfl) rfl⟩
  rw [← hpre rfl]
  exact hm

/-- C9: on every path of `main` that starts the CPU task, the trace of the
invoking thread is a prefix, the join, and a rest: the task is started in the
prefix, nothing in the prefix reads the exit status, reports statistics, dumps
the RAM or ends the process, and the rest, which does all that, ends with the
one call of `exit`. This holds whether the graphics block ran, ended first or
failed. -/
theorem join_precedes_reporting (w : world) (c : cmdline)
    (h : event.cpu_thread_started ∈ main_run w c) :
    ∃ pre post, main_run w c = pre ++ event.joined :: post ∧
      event.cpu_thread_started ∈ pre ∧
      (∀ ev ∈ pre, ev.reports = false ∧ ev ≠ event.joined) ∧
      post = after_join w c.config.verbose (cpu_task w c) ∧
      (∃ code, exit_status post = some code) ∧
      exit_status (main_run w c) = exit_status post := by
  cases hl : load_image w c with
  | none =>
    unfold main_run at h
    simp [hl] at h
  | some r =>
    cases r with
    | error e =>
      unfold main_run at h
      simp [hl] at h
    | ok rep =>
      obtain ⟨ram1, _, hm⟩ := main_run_started w c rep hl
      obtain ⟨post, hp, hx, _⟩ := after_join_shape w c.config.verbose (cpu_task w c)
      refine ⟨[event.ram_created, event.image_loaded, event.mmio_populated, event.cpu_created,
          event.cpu_thread_started]
        ++ (if w.gui_built && c.config.gfx_enabled then gfx_block w.gfx ram1 else []),
        after_join w c.config.verbose (cpu_task w c), ?_, ?_, ?_, rfl, ?_, ?_⟩
      · rw [hm]
        simp only [List.append_assoc, List.singleton_append]
      · simp
      · intro ev hev
        rw [List.mem_append] at hev
        rcases hev with hev | hev
        · simp at hev
          rcases hev with rfl | rfl | rfl | rfl | rfl <;> simp [event.reports]
        · split at hev
          · exact gfx_block_quiet _ _ ev hev
          · simp at hev
      · rcases hx with hx | hx
        · exact ⟨_, hx⟩
        · exact ⟨_, hx⟩
      · exact main_run_exit_status w c rep hl

/-- C9, at the sample world with graphics enabled and a window closed after
three frames. -/
theorem join_precedes_reporting_witness :
    ∃ pre post, main_run (sample_world (working_gfx 3) (fun _ => .returned 0))
        (sample_cmdline true) = pre ++ event.joined :: post ∧
      event.cpu_thread_started ∈ pre ∧
      (∀ ev ∈ pre, ev.reports = false ∧ ev ≠ event.joined) ∧
      post = after_join (sample_world (working_gfx 3) (fun _ => .returned 0))
        (sample_cmdline true).config.verbose
        (cpu_task (sample_world (working_gfx 3) (fun _ => .returned 0)) (sample_cmdline true)) ∧
      (∃ code, exit_status post = some code) ∧
      exit_status (main_run (sample_world (working_gfx 3) (fun _ => .returned 0))
        (sample_cmdline true)) = exit_status post :=
  join_precedes_reporting (sample_world (working_gfx 3) (fun _ => .returned 0))
    (sample_cmdline true) (by decide)

/-! ## The presentation loop: the frame counter -/

/-- Stores to the counter word keep the size of the memory. -/
theorem foldl_put32_size (l : List Nat) :
    ∀ ram : ram_t, (l.foldl (fun m v => m.put32 0xc0000020 v) ram).size = ram.size := by
  induction l with
  | nil => intro ram; rfl
  | cons v rest ih =>
    intro ram
    rw [List.foldl_cons, ih, put32_size]

/-- Stores to the counter word write its four bytes, once per store, and no
other byte. -/
theorem foldl_put32_written (l : List Nat) :
    ∀ ram : ram_t, (l.foldl (fun m v => m.put32 0xc0000020 v) ram).written
      = (List.replicate l.length [0xc0000023, 0xc0000022, 0xc0000021, 0xc0000020]).flatten
        ++ ram.written := by
  induction l using List.reverseRecOn with
  | nil => intro ram; rfl
  | append_singleton rest v ih =>
    intro ram
    rw [List.foldl_append, List.length_append, List.length_singleton, List.replicate_succ,
      List.flatten_cons, List.append_assoc, ← ih]
    rfl

/-- After a sequence of stores to the counter word the word holds the value
stored last. -/
theorem foldl_put32_load32 (l : List Nat) (v : Nat) (ram : ram_t)
    (hs : 0xc0000024 ≤ ram.size) :
    ((l ++ [v]).foldl (fun m v => m.put32 0xc0000020 v) ram).load32 0xc0000020
      = .ok (v % 2 ^ 32) := by
  rw [List.foldl_append]
  exact load32_put32_same _ _ _ (by rw [foldl_put32_size]; omega)

/-- The loop, when the GPU never throws and the memory covers the counter
word: one store per frame, of the running 32-bit counter, and every frame is
painted; the memory it leaves is the one these stores leave. -/
theorem presentation_loop_values (n : Nat) :
    ∀ (i : Nat) (ram : ram_t) (f : Nat), 0xc0000024 ≤ ram.size →
      (presentation_loop (fun _ => false) n i ram f).counter_values
          = (List.range n).map (fun k => if k = 0 then f else (f + k) % 2 ^ 32) ∧
      (presentation_loop (fun _ => false) n i ram f).painted = n ∧
      (presentation_loop (fun _ => false) n i ram f).failure = none ∧
      (presentation_loop (fun _ => false) n i ram f).ram
          = (presentation_loop (fun _ => false) n i ram f).counter_values.foldl
              (fun m v => m.put32 0xc0000020 v) ram := by
  induction n with
  | zero => intro i ram f _; exact ⟨rfl, rfl, rfl, rfl⟩
  | succ k ih =>
    intro i ram f hs
    have hst : ram.store32 0xc0000020 f = .ok (ram.put32 0xc0000020 f) :=
      store32_ok ram _ _ (by omega)
    obtain ⟨h1, h2, h3, h4⟩ := ih (i + 1) (ram.put32 0xc0000020 f) ((f + 1) % 2 ^ 32)
      (by rw [put32_size]; exact hs)
    simp only [presentation_loop, Bool.false_eq_true, if_false, hst]
    refine ⟨?_, ?_, ?_, ?_⟩
    · rw [h1, List.range_succ_eq_map]
      simp only [List.map_cons, List.map_map, if_true]
      congr 1
      apply List.map_congr_left
      intro x _
      simp only [Function.comp, Nat.succ_ne_zero, if_false]
      by_cases hx : x = 0
      · simp [hx]
      · simp only [hx, if_false]
        rw [Nat.add_mod, Nat.mod_mod, ← Nat.add_mod]
        congr 1
        omega
    · rw [h2]
    · exact h3
    · rw [List.foldl_cons]
      exact h4

/-- After `m + 1` frames the counter word in memory holds the counter of the
last frame, the start value plus `m` in 32 bits. -/
theorem presentation_loop_word (m i : Nat) (ram : ram_t) (f : Nat)
    (hs : 0xc0000024 ≤ ram.size) :
    (presentation_loop (fun _ => false) (m + 1) i ram f).ram.load32 0xc0000020
      = .ok ((f + m) % 2 ^ 32) := by
  obtain ⟨h1, _, _, h4⟩ := presentation_loop_values (m + 1) i ram f hs
  rw [h4, h1, List.range_succ, List.map_append, List.map_singleton,
    foldl_put32_load32 _ _ _ hs]
  by_cases h0 : m = 0
  · simp [h0]
  · simp only [h0, if_false, Nat.mod_mod]

/-- C11 (as stated, refuted): the loop run for `2 ^ 32 + 1` frames on a memory
of 4 GiB. The value stored for frame number `2 ^ 32` (counting from 0) is 0,
after 4294967295 for the frame before it: the sequence is not increasing.
The word at `0xc0000020` holds 4294967295 after `2 ^ 32` frames and 0 after
one frame more. -/
theorem frame_counter_wraps :
    (presentation_loop (fun _ => false) (2 ^ 32 + 1) 0 (zero_ram 0x100000000) 0).counter_values[
        2 ^ 32 - 1]? = some 4294967295 ∧
    (presentation_loop (fun _ => false) (2 ^ 32 + 1) 0 (zero_ram 0x100000000) 0).counter_values[
        2 ^ 32]? = some 0 ∧
    (presentation_loop (fun _ => false) (2 ^ 32) 0 (zero_ram 0x100000000) 0).ram.load32
        0xc0000020 = .ok 4294967295 ∧
    (presentation_loop (fun _ => false) (2 ^ 32 + 1) 0 (zero_ram 0x100000000) 0).ram.load32
        0xc0000020 = .ok 0 := by
  have h := (presentation_loop_values (2 ^ 32 + 1) 0 (zero_ram 0x100000000) 0 (by decide)).1
  refine ⟨?_, ?_, ?_, ?_⟩
  · rw [h, List.getElem?_map, List.getElem?_range (by norm_num)]
    rfl
  · rw [h, List.getElem?_map, List.getElem?_range (by norm_num)]
    rfl
  · have h3 := presentation_loop_word (2 ^ 32 - 1) 0 (zero_ram 0x100000000) 0 (by decide)
    have e : 2 ^ 32 - 1 + 1 = 2 ^ 32 := by norm_num
    have v : (0 + (2 ^ 32 - 1)) % 2 ^ 32 = 4294967295 := by norm_num
    rw [e, v] at h3
    exact h3
  · have h4 := presentation_loop_word (2 ^ 32) 0 (zero_ram 0x100000000) 0 (by decide)
    have v : (0 + 2 ^ 32) % 2 ^ 32 = 0 := by norm_num
    rw [v] at h4
    exact h4

/-- C11 (amended): for every number `n` of frames up to `2 ^ 32`, on a memory
that covers the word at `0xc0000020` and with a GPU that does not throw, the
loop stores the frame counter exactly once per presented frame, the values
stored are 0, 1, ..., n - 1 in this order, so the first is 0 and each is
greater than the one before. The stores go to memory: the memory the loop
leaves is the given one after the 32-bit stores of 0, 1, ..., n - 1 to
`0xc0000020`, the bytes written are the four bytes of that word, once per
frame, and after the frame with counter `k` a 32-bit load from `0xc0000020`
returns `k`. -/
theorem frame_counter_increasing (n : Nat) (i : Nat) (ram : ram_t) (hn : n ≤ 2 ^ 32)
    (hs : 0xc0000024 ≤ ram.size) :
    (presentation_loop (fun _ => false) n i ram 0).counter_values = List.range n ∧
    (presentation_loop (fun _ => false) n i ram 0).counter_values.length = n ∧
    (presentation_loop (fun _ => false) n i ram 0).painted = n ∧
    (presentation_loop (fun _ => false) n i ram 0).failure = none ∧
    (presentation_loop (fun _ => false) n i ram 0).counter_values.Pairwise (fun a b => a < b) ∧
    (0 < n → (presentation_loop (fun _ => false) n i ram 0).counter_values.head? = some 0) ∧
    (presentation_loop (fun _ => false) n i ram 0).ram
      = (List.range n).foldl (fun m v => m.put32 0xc0000020 v) ram ∧
    (presentation_loop (fun _ => false) n i ram 0).ram.written
      = (List.replicate n [0xc0000023, 0xc0000022, 0xc0000021, 0xc0000020]).flatten
        ++ ram.written ∧
    (∀ k, k < n →
      (presentation_loop (fun _ => false) (k + 1) i ram 0).ram.load32 0xc0000020 = .ok k) ∧
    (0 < n →
      (presentation_loop (fun _ => false) n i ram 0).ram.load32 0xc0000020 = .ok (n - 1)) := by
  obtain ⟨h1, h2, h3, h4⟩ := presentation_loop_values n i ram 0 hs
  have hv : (presentation_loop (fun _ => false) n i ram 0).counter_values = List.range n := by
    rw [h1]
    conv_rhs => rw [← List.map_id (List.range n)]
    apply List.map_congr_left
    intro x hx
    rw [List.mem_range] at hx
    by_cases h0 : x = 0
    · simp [h0]
    · simp only [h0, if_false, Nat.zero_add, id]
      exact Nat.mod_eq_of_lt (by omega)
  have hw : ∀ k, k < n →
      (presentation_loop (fun _ => false) (k + 1) i ram 0).ram.load32 0xc0000020 = .ok k := by
    intro k hk
    rw [presentation_loop_word k i ram 0 hs, Nat.zero_add, Nat.mod_eq_of_lt (by omega)]
  refine ⟨hv, ?_, h2, h3, ?_, ?_, ?_, ?_, hw, ?_⟩
  · rw [hv, List.length_range]
  · rw [hv]
    exact List.pairwise_lt_range n
  · intro hpos
    rw [hv]
    cases n with
    | zero => omega
    | succ k => simp [List.range_succ_eq_map]
  · rw [h4, hv]
  · rw [h4, hv, foldl_put32_written, List.length_range]
  · intro hpos
    cases n with
    | zero => omega
    | succ k => exact hw k (Nat.lt_succ_self k)

/-- C11 (amended), at three frames on a memory of 4 GiB. -/
theorem frame_counter_increasing_witness :
    (presentation_loop (fun _ => false) 3 0 (zero_ram 0x100000000) 0).counter_values
      = List.range 3 ∧
    (presentation_loop (fun _ => false) 3 0 (zero_ram 0x100000000) 0).counter_values.length = 3 ∧
    (presentation_loop (fun _ => false) 3 0 (zero_ram 0x100000000) 0).painted = 3 ∧
    (presentation_loop (fun _ => false) 3 0 (zero_ram 0x100000000) 0).failure = none ∧
    (presentation_loop (fun _ => false) 3 0 (zero_ram 0x100000000) 0).counter_values.Pairwise
      (fun a b => a < b) ∧
    (0 < 3 → (presentation_loop (fun _ => false) 3 0 (zero_ram 0x100000000) 0).counter_values.head?
      = some 0) ∧
    (presentation_loop (fun _ => false) 3 0 (zero_ram 0x100000000) 0).ram
      = (List.range 3).foldl (fun m v => m.put32 0xc0000020 v) (zero_ram 0x100000000) ∧
    (presentation_loop (fun _ => false) 3 0 (zero_ram 0x100000000) 0).ram.written
      = (List.replicate 3 [0xc0000023, 0xc0000022, 0xc0000021, 0xc0000020]).flatten
        ++ (zero_ram 0x100000000).written ∧
    (∀ k, k < 3 →
      (presentation_loop (fun _ => false) (k + 1) 0 (zero_ram 0x100000000) 0).ram.load32
        0xc0000020 = .ok k) ∧
    (0 < 3 →
      (presentation_loop (fun _ => false) 3 0 (zero_ram 0x100000000) 0).ram.load32 0xc0000020
        = .ok (3 - 1)) :=
  frame_counter_increasing 3 0 (zero_ram 0x100000000) (by decide) (by decide)

/-! ## Argument parsing -/

/-- A positional argument becomes the program file if there is none yet, and
ends the program with code 1 otherwise. -/
theorem parse_loop_positional (stoull : String → Option Nat) (p : String) (rest : List String)
    (c : cmdline) (hp : is_option p = false) :
    parse_loop stoull (p :: rest) c =
      if c.bin_file.isNone then parse_loop stoull rest { c with bin_file := some p }
      else .exit 1 := by
  rw [parse_loop.eq_def]
  simp [hp]

/-- A well-formed option, with its value if it takes one, is consumed without
touching the program file, whatever follows. -/
theorem parse_loop_option (stoull : String → Option Nat) (item : arg_item)
    (rest : List String) (c : cmdline) (P : parsed → Prop)
    (hw : item.well_formed stoull = true) (hn : ∀ p, item ≠ .positional p)
    (h : ∀ c1 : cmdline, c1.bin_file = c.bin_file → P (parse_loop stoull rest c1)) :
    P (parse_loop stoull (item.render ++ rest) c) := by
  cases item with
  | positional p => exact absurd rfl (hn p)
  | flag name =>
    simp [arg_item.well_formed, flag_names] at hw
    rcases hw with rfl | rfl | rfl | rfl <;>
    · simp only [arg_item.render, List.singleton_append]
      rw [parse_loop.eq_def]
      simp [is_option]
      exact h _ rfl
  | valued name value =>
    simp [arg_item.well_formed, trace_names, numeric_names] at hw
    rcases hw with (rfl | rfl) | ⟨hname, hv⟩
    · simp only [arg_item.render, List.cons_append, List.nil_append]
      rw [parse_loop.eq_def]
      simp [is_option]
      exact h _ rfl
    · simp only [arg_item.render, List.cons_append, List.nil_append]
      rw [parse_loop.eq_def]
      simp [is_option]
      exact h _ rfl
    · obtain ⟨x, hx⟩ := Option.isSome_iff_exists.mp hv
      rcases hname with rfl | rfl | rfl | rfl | rfl | rfl | rfl | rfl | rfl | rfl | rfl | rfl |
        rfl | rfl <;>
      · simp only [arg_item.render, List.cons_append, List.nil_append]
        rw [parse_loop.eq_def]
        simp [is_option, str_to_int64, str_to_uint32, str_to_uint64, hx]
        exact h _ rfl

/-- The argument loop on a well-formed command line: it ends the program with
code 1 as soon as a second program file shows up, and otherwise returns with
the program file it had, or the one positional argument. -/
theorem parse_loop_positionals (stoull : String → Option Nat) :
    ∀ (items : List arg_item) (c : cmdline),
      (∀ item ∈ items, item.well_formed stoull = true) →
      (2 ≤ (positionals items).length + c.bin_file.toList.length →
        parse_loop stoull (render_all items) c = .exit 1) ∧
      ((positionals items).length + c.bin_file.toList.length ≤ 1 →
        ∃ c1, parse_loop stoull (render_all items) c = .go c1 ∧
          c1.bin_file = (c.bin_file <|> (positionals items).head?)) := by
  intro items
  induction items with
  | nil =>
    intro c _
    refine ⟨?_, ?_⟩
    · intro h
      cases hb : c.bin_file <;> simp [positionals, hb] at h
    · intro _
      refine ⟨c, rfl, ?_⟩
      cases hb : c.bin_file <;> simp [positionals]
  | cons item rest ih =>
    intro c hw
    have hw1 := hw item (List.mem_cons_self _ _)
    have hw2 : ∀ x ∈ rest, x.well_formed stoull = true :=
      fun x hx => hw x (List.mem_cons_of_mem _ hx)
    cases item with
    | positional p =>
      have hp : is_option p = false := by simpa [arg_item.well_formed] using hw1
      simp only [render_all, arg_item.render, List.singleton_append, positionals,
        List.length_cons, List.head?_cons]
      rw [parse_loop_positional stoull p _ c hp]
      cases hb : c.bin_file with
      | some q => simp
      | none =>
        obtain ⟨i1, i2⟩ := ih { c with bin_file := some p } hw2
        simp only [Option.isNone_none, if_true, Option.toList_none, List.length_nil,
          Nat.add_zero]
        refine ⟨?_, ?_⟩
        · intro h
          exact i1 (by simpa using h)
        · intro h
          obtain ⟨c1, h1, h2⟩ := i2 (by simpa using h)
          exact ⟨c1, h1, by simpa using h2⟩
    | flag name =>
      simp only [render_all, positionals]
      refine parse_loop_option stoull (.flag name) (render_all rest) c
        (fun r => (2 ≤ (positionals rest).length + c.bin_file.toList.length → r = .exit 1) ∧
          ((positionals rest).length + c.bin_file.toList.length ≤ 1 →
            ∃ c1, r = .go c1 ∧ c1.bin_file = (c.bin_file <|> (positionals rest).head?)))
        hw1 (by intro p hp; cases hp) ?_
      intro c1 hc1
      rw [← hc1]
      exact ih c1 hw2
    | valued name value =>
      simp only [render_all, positionals]
      refine parse_loop_option stoull (.valued name value) (render_all rest) c
        (fun r => (2 ≤ (positionals rest).length + c.bin_file.toList.length → r = .exit 1) ∧
          ((positionals rest).length + c.bin_file.toList.length ≤ 1 →
            ∃ c1, r = .go c1 ∧ c1.bin_file = (c.bin_file <|> (positionals rest).head?)))
        hw1 (by intro p hp; cases hp) ?_
      intro c1 hc1
      rw [← hc1]
      exact ih c1 hw2

/-- C12 (as stated, refuted): the command line `mr32sim -A xyz prog.bin` is
made of a recognised option with its value and one positional argument, yet
parsing does not take `prog.bin` as the image path: the number parser rejects
`xyz` and the program ends with code 1. -/
theorem parse_args_rejects_bad_number :
    parse_args stoull_model ["mr32sim", "-A", "xyz", "prog.bin"] (sample_cmdline false).config
      = .exit 1 := by
  decide

/-- C12 (amended): for every command line made of recognised options (without
the help options), each option that takes a value followed by its value and
each numeric value accepted by the number parser, and of positional arguments:
with no positional argument parsing ends the program with code 1 and `main`
does nothing else (no memory is created); with two or more it ends the program
with code 1; with exactly one it takes that argument as the image path. The
value of an option never counts as a positional argument. -/
theorem parse_args_program_file (stoull : String → Option Nat) (w : world) (prog : String)
    (items : List arg_item) (cfg0 : config_t)
    (hw : ∀ item ∈ items, item.well_formed stoull = true) :
    (positionals items = [] →
      parse_args stoull (prog :: render_all items) cfg0 = .exit 1 ∧
      main stoull w (prog :: render_all items) cfg0 = [event.exit 1]) ∧
    (2 ≤ (positionals items).length →
      parse_args stoull (prog :: render_all items) cfg0 = .exit 1) ∧
    (∀ p, positionals items = [p] →
      ∃ c, parse_args stoull (prog :: render_all items) cfg0 = .go c ∧ c.bin_file = some p) := by
  obtain ⟨h1, h2⟩ := parse_loop_positionals stoull items (initial_cmdline cfg0) hw
  simp only [initial_cmdline, Option.toList_none, List.length_nil, Nat.add_zero,
    Option.none_orElse, Option.none_or] at h1 h2
  refine ⟨?_, ?_, ?_⟩
  · intro h0
    obtain ⟨c1, hc1, hb⟩ := h2 (by simp [h0])
    have hp : parse_args stoull (prog :: render_all items) cfg0 = .exit 1 := by
      simp only [parse_args, List.tail_cons, initial_cmdline, hc1]
      simp [hb, h0]
    exact ⟨hp, by simp only [main, hp]⟩
  · intro h0
    simp only [parse_args, List.tail_cons, initial_cmdline, h1 h0]
  · intro p h0
    obtain ⟨c1, hc1, hb⟩ := h2 (by simp [h0])
    refine ⟨c1, ?_, by simpa [h0] using hb⟩
    simp only [parse_args, List.tail_cons, initial_cmdline, hc1]
    simp [hb, h0]

/-- C12 (amended), at `mr32sim -v -t out.txt -A 0x200 prog.bin` in the sample
world. -/
theorem parse_args_program_file_witness :
    (positionals [.flag "-v", .valued "-t" "out.txt", .valued "-A" "0x200",
        .positional "prog.bin"] = [] →
      parse_args stoull_model ("mr32sim" :: render_all [.flag "-v", .valued "-t" "out.txt",
        .valued "-A" "0x200", .positional "prog.bin"]) (sample_cmdline false).config = .exit 1 ∧
      main stoull_model (sample_world (working_gfx 0) (fun _ => .returned 0))
        ("mr32sim" :: render_all [.flag "-v", .valued "-t" "out.txt", .valued "-A" "0x200",
          .positional "prog.bin"]) (sample_cmdline false).config = [event.exit 1]) ∧
    (2 ≤ (positionals [.flag "-v", .valued "-t" "out.txt", .valued "-A" "0x200",
        .positional "prog.bin"]).length →
      parse_args stoull_model ("mr32sim" :: render_all [.flag "-v", .valued "-t" "out.txt",
        .valued "-A" "0x200", .positional "prog.bin"]) (sample_cmdline false).config = .exit 1) ∧
    (∀ p, positionals [.flag "-v", .valued "-t" "out.txt", .valued "-A" "0x200",
        .positional "prog.bin"] = [p] →
      ∃ c, parse_args stoull_model ("mr32sim" :: render_all [.flag "-v", .valued "-t" "out.txt",
        .valued "-A" "0x200", .positional "prog.bin"]) (sample_cmdline false).config = .go c ∧
        c.bin_file = some p) :=
  parse_args_program_file stoull_model (sample_world (working_gfx 0) (fun _ => .returned 0))
    "mr32sim" [.flag "-v", .valued "-t" "out.txt", .valued "-A" "0x200", .positional "prog.bin"]
    (sample_cmdline false).config (by decide)

/-! ## Narrowing of numeric option values -/

/-- C17: for every string that `str_to_uint64` accepts, with value `v`,
`str_to_uint32` gives `v mod 2 ^ 32` and `str_to_int64` the two's-complement
reading of `v`, negative when `v` is `2 ^ 63` or more; nothing is checked
against a range, so the options `-A`, `-ga` and `-c` take the narrowed value.
With the standard number parser, the load address `4294967296` is accepted and
becomes 0, and the cycle budget `18446744073709551615` becomes -1, the value
`max_cycles` has when no budget is given. -/
theorem numeric_options_wrap (stoull : String → Option Nat) (s : String) (v : Nat)
    (rest : List String) (c : cmdline) (h : str_to_uint64 stoull s = some v) :
    v < 2 ^ 64 ∧
    str_to_uint32 stoull s = some (v % 2 ^ 32) ∧
    str_to_int64 stoull s = some (if v < 2 ^ 63 then (v : Int) else (v : Int) - 2 ^ 64) ∧
    (2 ^ 63 ≤ v → ∃ i : Int, str_to_int64 stoull s = some i ∧ i < 0) ∧
    parse_loop stoull ("-A" :: s :: rest) c
      = parse_loop stoull rest { c with bin_addr := v % 2 ^ 32, bin_addr_defined := true } ∧
    parse_loop stoull ("-ga" :: s :: rest) c
      = parse_loop stoull rest { c with config := { c.config with gfx_addr := v % 2 ^ 32 } } ∧
    parse_loop stoull ("-c" :: s :: rest) c
      = parse_loop stoull rest { c with max_cycles := to_int64 v } ∧
    str_to_uint32 stoull_model "4294967296" = some 0 ∧
    str_to_int64 stoull_model "18446744073709551615" = some (-1) ∧
    (initial_cmdline c.config).max_cycles = -1 ∧
    parse_args stoull_model ["mr32sim", "-A", "4294967296", "-c", "18446744073709551615",
        "prog.bin"] c.config
      = .go { initial_cmdline c.config with
              bin_file := some "prog.bin", bin_addr := 0, bin_addr_defined := true,
              max_cycles := -1 } := by
  have hv : v < 2 ^ 64 := by
    unfold str_to_uint64 at h
    cases hs : stoull s with
    | none => simp [hs] at h
    | some x =>
      simp [hs] at h
      omega
  have h32 : str_to_uint32 stoull s = some (v % 2 ^ 32) := by
    simp [str_to_uint32, h]
  have h64 : str_to_int64 stoull s = some (to_int64 v) := by
    simp [str_to_int64, h]
  have hto : to_int64 v = if v < 2 ^ 63 then (v : Int) else (v : Int) - 2 ^ 64 := by
    unfold to_int64
    rw [Nat.mod_eq_of_lt hv]
  refine ⟨hv, h32, by rw [h64, hto], ?_, ?_, ?_, ?_, by decide, by decide, rfl, ?_⟩
  · intro hbig
    refine ⟨to_int64 v, h64, ?_⟩
    rw [hto, if_neg (by omega)]
    have : (v : Int) < 2 ^ 64 := by exact_mod_cast hv
    omega
  · rw [parse_loop.eq_def]
    simp [is_option, h32]
  · rw [parse_loop.eq_def]
    simp [is_option, h32]
  · rw [parse_loop.eq_def]
    simp [is_option, h64]
  · simp only [parse_args, List.tail_cons]
    rw [parse_loop.eq_def]
    have e1 : str_to_uint32 stoull_model "4294967296" = some 0 := by decide
    simp [is_option, e1]
    rw [parse_loop.eq_def]
    have e2 : str_to_int64 stoull_model "18446744073709551615" = some (-1) := by decide
    simp [is_option, e2]
    rw [parse_loop.eq_def]
    simp [is_option]
    rw [parse_loop.eq_def]
    simp [initial_cmdline]

/-- C17, at the string `4294967296` read by the standard number parser. -/
theorem numeric_options_wrap_witness :
    (4294967296 : Nat) < 2 ^ 64 ∧
    str_to_uint32 stoull_model "4294967296" = some (4294967296 % 2 ^ 32) ∧
    str_to_int64 stoull_model "4294967296"
      = some (if 4294967296 < 2 ^ 63 then ((4294967296 : Nat) : Int)
          else ((4294967296 : Nat) : Int) - 2 ^ 64) ∧
    (2 ^ 63 ≤ 4294967296 → ∃ i : Int, str_to_int64 stoull_model "4294967296" = some i ∧ i < 0) ∧
    parse_loop stoull_model ("-A" :: "4294967296" :: []) (sample_cmdline false)
      = parse_loop stoull_model [] { sample_cmdline false with
          bin_addr := 4294967296 % 2 ^ 32, bin_addr_defined := true } ∧
    parse_loop stoull_model ("-ga" :: "4294967296" :: []) (sample_cmdline false)
      = parse_loop stoull_model [] { sample_cmdline false with
          config := { (sample_cmdline false).config with gfx_addr := 4294967296 % 2 ^ 32 } } ∧
    parse_loop stoull_model ("-c" :: "4294967296" :: []) (sample_cmdline false)
      = parse_loop stoull_model [] { sample_cmdline false with max_cycles := to_int64 4294967296 } ∧
    str_to_uint32 stoull_model "4294967296" = some 0 ∧
    str_to_int64 stoull_model "18446744073709551615" = some (-1) ∧
    (initial_cmdline (sample_cmdline false).config).max_cycles = -1 ∧
    parse_args stoull_model ["mr32sim", "-A", "4294967296", "-c", "18446744073709551615",
        "prog.bin"] (sample_cmdline false).config
      = .go { initial_cmdline (sample_cmdline false).config with
              bin_file := some "prog.bin", bin_addr := 0, bin_addr_defined := true,
              max_cycles := -1 } :=
  numeric_options_wrap stoull_model "4294967296" 4294967296 [] (sample_cmdline false)
    (by decide)

/-! ## The demo program: the random state of `Jitter` -/

theorem Jitter_state_eq_spec (w : Nat) (hw : 31 ≤ w) (s : Nat) :
    Jitter_state w s = Jitter_spec s := by
  unfold Jitter_state Jitter_spec
  have hm : (0x7fffffff : Nat) = 2 ^ 31 - 1 := by norm_num
  rw [hm, Nat.and_pow_two_sub_one_eq_mod]
  have hd : 2 ^ 31 ∣ 2 ^ w := Nat.pow_dvd_pow 2 hw
  rw [Nat.mod_mod_of_dvd _ hd, Nat.add_mod, Nat.mod_mod_of_dvd _ hd, ← Nat.add_mod]

theorem Jitter_spec_congr (s t : Nat) (h : s % 2 ^ 32 = t % 2 ^ 32) :
    Jitter_spec s = Jitter_spec t := by
  unfold Jitter_spec
  have h31 : s % 2 ^ 31 = t % 2 ^ 31 := by omega
  rw [Nat.add_mod, Nat.mul_mod, h31, ← Nat.mul_mod, ← Nat.add_mod]

/-- C16: the random state after `Jitter` computed with 32-bit wrapping
arithmetic equals the one computed with 64-bit wrapping arithmetic whenever the
two states before agree modulo `2 ^ 32`; both are the linear congruential step
`(1103515245 * s + 12345) mod 2 ^ 31`, and the new state is below `2 ^ 31`. -/
theorem Jitter_width_independent (s32 s64 : Nat) (h : s32 % 2 ^ 32 = s64 % 2 ^ 32) :
    Jitter_state 32 s32 = Jitter_state 64 s64 ∧
    Jitter_state 32 s32 = Jitter_spec s32 ∧
    Jitter_state 64 s64 = Jitter_spec s64 ∧
    Jitter_state 32 s32 < 2 ^ 31 ∧ Jitter_state 64 s64 < 2 ^ 31 := by
  have e32 := Jitter_state_eq_spec 32 (by norm_num) s32
  have e64 := Jitter_state_eq_spec 64 (by norm_num) s64
  have hc := Jitter_spec_congr s32 s64 h
  refine ⟨by rw [e32, e64, hc], e32, e64, ?_, ?_⟩
  · rw [e32]
    exact Nat.mod_lt _ (by norm_num)
  · rw [e64]
    exact Nat.mod_lt _ (by norm_num)

/-- C16, at the seed `0x52462467` of `main` on the target and the same seed
with high bits set on a 64-bit host. -/
theorem Jitter_width_independent_witness :
    Jitter_state 32 0x52462467 = Jitter_state 64 0x100000052462467 ∧
    Jitter_state 32 0x52462467 = Jitter_spec 0x52462467 ∧
    Jitter_state 64 0x100000052462467 = Jitter_spec 0x100000052462467 ∧
    Jitter_state 32 0x52462467 < 2 ^ 31 ∧ Jitter_state 64 0x100000052462467 < 2 ^ 31 :=
  Jitter_width_independent 0x52462467 0x100000052462467 (by decide)

/-! ## The demo program: the stores of `TraceScene` -/

/-- The offsets stored to in one row of `w` pixels that starts at pixel `b`. -/
theorem row_offsets (pix : Nat → Nat → byte × byte × byte) (sy b : Nat)
    (hb : b = sy * WIDTH) (w : Nat) :
    ((List.range w).flatMap (fun sx => pixel_stores pix sx sy)).map Prod.fst
      = List.range' (4 * b) (4 * w) := by
  induction w with
  | zero => rfl
  | succ k ih =>
    rw [List.range_succ, List.flatMap_append, List.map_append, ih]
    have e : 4 * (k + 1) = 4 + 4 * k := by ring
    rw [e, ← List.range'_append (4 * b) (4 * k) 4 1]
    congr 1
    simp only [List.flatMap_cons, List.flatMap_nil, List.append_nil, pixel_stores, List.map_cons,
      List.map_nil, ← hb]
    have e4 : List.range' (4 * b + 1 * (4 * k)) 4 1
        = [4 * (k + b), 4 * (k + b) + 1, 4 * (k + b) + 2, 4 * (k + b) + 3] := by
      have e0 : 4 * b + 1 * (4 * k) = 4 * (k + b) := by ring
      rw [e0]
      rfl
    rw [e4]

/-- The offsets stored to in the first `h` rows. -/
theorem scene_offsets (pix : Nat → Nat → byte × byte × byte) (h : Nat) :
    ((List.range h).flatMap (fun sy =>
      (List.range WIDTH).flatMap (fun sx => pixel_stores pix sx sy))).map Prod.fst
      = List.range' 0 (4 * WIDTH * h) := by
  induction h with
  | zero => rfl
  | succ k ih =>
    rw [List.range_succ, List.flatMap_append, List.map_append, ih]
    have e : 4 * WIDTH * (k + 1) = 4 * WIDTH + 4 * WIDTH * k := by ring
    rw [e, ← List.range'_append 0 (4 * WIDTH * k) (4 * WIDTH) 1]
    congr 1
    simp only [List.flatMap_cons, List.flatMap_nil, List.append_nil]
    rw [row_offsets pix k (k * WIDTH) rfl WIDTH]
    congr 1
    ring

/-- The offsets of the stores of `TraceScene`, in program order, are
0, 1, ..., 230399. -/
theorem TraceScene_offsets (pix : Nat → Nat → byte × byte × byte) :
    (TraceScene pix).map Prod.fst = List.range 230400 := by
  unfold TraceScene
  rw [scene_offsets pix HEIGHT, List.range_eq_range']
  rfl

/-- Every store of `TraceScene` to an offset that is 3 modulo 4 stores 255. -/
theorem TraceScene_alpha (pix : Nat → Nat → byte × byte × byte) :
    ∀ p ∈ TraceScene pix, p.1 % 4 = 3 → p.2 = 255 := by
  intro p hp h3
  unfold TraceScene at hp
  simp only [List.mem_flatMap, pixel_stores, List.mem_cons, List.mem_singleton,
    List.not_mem_nil, or_false] at hp
  obtain ⟨sy, _, sx, _, hp⟩ := hp
  rcases hp with rfl | rfl | rfl | rfl
  · exact absurd h3 (by omega)
  · exact absurd h3 (by omega)
  · exact absurd h3 (by omega)
  · rfl

/-- C15: every byte offset that `TraceScene` writes is below
`WIDTH * HEIGHT * 4 = 230400`; every offset in `[0, 230400)` is written exactly
once; every offset that is 3 modulo 4 receives 255; and with the buffer at
`0x40000000` every address written lies in `[0x40000000, 0x40040000)`, the
range that the simulator dumps. -/
theorem TraceScene_in_buffer (pix : Nat → Nat → byte × byte × byte) :
    WIDTH * HEIGHT * 4 = 230400 ∧
    (∀ p ∈ TraceScene pix, p.1 < 230400 ∧
      0x40000000 ≤ 0x40000000 + p.1 ∧ 0x40000000 + p.1 < 0x40040000) ∧
    (∀ o, o < 230400 → ((TraceScene pix).map Prod.fst).count o = 1) ∧
    (∀ p ∈ TraceScene pix, p.1 % 4 = 3 → p.2 = 255) ∧
    (∀ o, o < 230400 → o % 4 = 3 → (o, 255) ∈ TraceScene pix) ∧
    (TraceScene pix).length = 230400 := by
  have hoff := TraceScene_offsets pix
  have hmem : ∀ p ∈ TraceScene pix, p.1 < 230400 := by
    intro p hp
    have : p.1 ∈ (TraceScene pix).map Prod.fst := List.mem_map_of_mem _ hp
    rw [hoff] at this
    exact List.mem_range.mp this
  refine ⟨by decide, ?_, ?_, TraceScene_alpha pix, ?_, ?_⟩
  · intro p hp
    have := hmem p hp
    omega
  · intro o ho
    rw [hoff]
    exact List.count_eq_one_of_mem (List.nodup_range 230400) (List.mem_range.mpr ho)
  · intro o ho h3
    have : o ∈ (TraceScene pix).map Prod.fst := by
      rw [hoff]
      exact List.mem_range.mpr ho
    obtain ⟨p, hp, rfl⟩ := List.mem_map.mp this
    have hv := TraceScene_alpha pix p hp h3
    have : p = (p.1, 255) := by
      rw [← hv]
    rw [← this]
    exact hp
  · have := congrArg List.length hoff
    simpa using this

/-! ## The demo program: the recursion of `TraceLine` -/

/-- Up to `MAXREC` the distributed branches are switched off: an invocation
makes at most one recursive call, no call of `Jitter`, and the whole call tree
has at most `n + 1` invocations. -/
theorem TraceLine_rec_bounded {R : Type} (sc : scene R) :
    ∀ (n : Nat), n ≤ 5 → ∀ (ray : R) (s : Nat),
      (TraceLine_rec sc n ray s).2.calls ≤ n + 1 ∧
      (TraceLine_rec sc n ray s).2.direct ≤ 1 ∧
      (TraceLine_rec sc n ray s).2.jitters = 0 ∧
      (TraceLine_rec sc n ray s).2.s_rnd = s ∧
      (TraceLine_rec sc n ray s).2.intersections ≤ 2 * n := by
  intro n
  induction n with
  | zero => intro _ ray s; simp [TraceLine_rec]
  | succ k ih =>
    intro hk ray s
    have hu : decide (MAXREC - ((k + 1 : Nat) : Int) < DISTLEVELS) = false := by
      simp only [MAXREC, DISTLEVELS, decide_eq_false_iff_not]
      omega
    obtain ⟨i1, i2, i3, i4, i5⟩ := ih (by omega) (sc.reflected ray) s
    simp only [TraceLine_rec, hu]
    cases sc.hit ray <;> cases sc.lit ray <;> cases sc.reflective ray <;>
      simp [i3, i4] <;> omega

/-- C14 (as stated, refuted): a call with `reccount = 6` in a scene where every
ray hits a lit, reflective, rough surface. The test `(MAXREC - reccount) <
DISTLEVELS` is `-1 < 0`, so the distributed branches are taken: the invocation
makes 8 recursive calls itself, `Jitter` is called 32 times, and 49 invocations
are made in total. -/
theorem TraceLine_above_MAXREC_distributes :
    (TraceLine mirror_hall () 6 0x52462467).2.direct = 8 ∧
    (TraceLine mirror_hall () 6 0x52462467).2.jitters = 32 ∧
    (TraceLine mirror_hall () 6 0x52462467).2.calls = 49 := by
  decide

/-- C14 (amended): `TraceLine` is total; a call with `reccount <= 0` returns
the colour (0,0,0) without an intersection test or a recursive call; with
`DISTLEVELS = 0` a call with `0 <= reccount <= MAXREC` makes at most one direct
recursive call (with `reccount - 1`), at most `reccount + 1` invocations in
total and never calls `Jitter`; so `TraceLine(.., MAXREC)` performs at most 6
invocations and leaves the random state as it was. -/
theorem TraceLine_bounded {R : Type} (sc : scene R) (ray : R) (reccount : Int) (s : Nat) :
    (reccount ≤ 0 → TraceLine sc ray reccount s
      = (.zero, { calls := 1, direct := 0, intersections := 0, jitters := 0, s_rnd := s })) ∧
    (0 ≤ reccount → reccount ≤ MAXREC →
      (TraceLine sc ray reccount s).2.direct ≤ 1 ∧
      ((TraceLine sc ray reccount s).2.calls : Int) ≤ reccount + 1 ∧
      (TraceLine sc ray reccount s).2.jitters = 0 ∧
      (TraceLine sc ray reccount s).2.s_rnd = s) ∧
    (TraceLine sc ray MAXREC s).2.calls ≤ 6 ∧
    (TraceLine sc ray MAXREC s).2.jitters = 0 := by
  refine ⟨?_, ?_, ?_, ?_⟩
  · intro h
    have h0 : reccount.toNat = 0 := by omega
    simp [TraceLine, h0, TraceLine_rec]
  · intro h0 h5
    have hn : reccount.toNat ≤ 5 := by
      simp only [MAXREC] at h5
      omega
    obtain ⟨i1, i2, i3, i4, _⟩ := TraceLine_rec_bounded sc reccount.toNat hn ray s
    refine ⟨i2, ?_, i3, i4⟩
    simp only [TraceLine]
    omega
  · exact (TraceLine_rec_bounded sc 5 (by omega) ray s).1
  · exact (TraceLine_rec_bounded sc 5 (by omega) ray s).2.2.1

/-- C14 (amended), at the scene of mirrors, `reccount = MAXREC` and the seed of
`main`. -/
theorem TraceLine_bounded_witness :
    ((5 : Int) ≤ 0 → TraceLine mirror_hall () 5 0x52462467
      = (.zero, { calls := 1, direct := 0, intersections := 0, jitters := 0,
                  s_rnd := 0x52462467 })) ∧
    ((0 : Int) ≤ 5 → (5 : Int) ≤ MAXREC →
      (TraceLine mirror_hall () 5 0x52462467).2.direct ≤ 1 ∧
      ((TraceLine mirror_hall () 5 0x52462467).2.calls : Int) ≤ 5 + 1 ∧
      (TraceLine mirror_hall () 5 0x52462467).2.jitters = 0 ∧
      (TraceLine mirror_hall () 5 0x52462467).2.s_rnd = 0x52462467) ∧
    (TraceLine mirror_hall () MAXREC 0x52462467).2.calls ≤ 6 ∧
    (TraceLine mirror_hall () MAXREC 0x52462467).2.jitters = 0 :=
  TraceLine_bounded mirror_hall () 5 0x52462467

/-! ## The demo program: `sqrtf_normalize` -/

/-- Bit `i` of the normalised pattern: the low 24 bits and bit 31 are those of
the argument, bits 24 to 29 are set, bit 30 and the bits above 31 are clear. -/
theorem normalized_testBit (a i : Nat) :
    ((a &&& 0x80ffffff) ||| 0x3f000000).testBit i
      = if i < 24 then a.testBit i else if i < 30 then true
        else if i = 31 then a.testBit i else false := by
  simp only [Nat.testBit_or, Nat.testBit_and]
  generalize a.testBit i = b
  by_cases h : i < 32
  · interval_cases i <;> cases b <;> decide
  · have h1 : Nat.testBit 0x80ffffff i = false :=
      Nat.testBit_lt_two_pow (Nat.lt_of_lt_of_le (by norm_num : 0x80ffffff < 2 ^ 32)
        (Nat.pow_le_pow_right (by norm_num) (by omega)))
    have h2 : Nat.testBit 0x3f000000 i = false :=
      Nat.testBit_lt_two_pow (Nat.lt_of_lt_of_le (by norm_num : 0x3f000000 < 2 ^ 32)
        (Nat.pow_le_pow_right (by norm_num) (by omega)))
    have e1 : ¬ i < 24 := by omega
    have e2 : ¬ i < 30 := by omega
    have e3 : ¬ i = 31 := by omega
    simp [h1, h2, e1, e2, e3]

theorem normalized_low (a : Nat) :
    ((a &&& 0x80ffffff) ||| 0x3f000000) % 2 ^ 24 = a % 2 ^ 24 := by
  apply Nat.eq_of_testBit_eq
  intro i
  rw [Nat.testBit_mod_two_pow, Nat.testBit_mod_two_pow, normalized_testBit]
  by_cases h : i < 24 <;> simp [h]

theorem normalized_mid (a : Nat) :
    ((a &&& 0x80ffffff) ||| 0x3f000000) / 2 ^ 24 % 2 ^ 7 = 63 := by
  apply Nat.eq_of_testBit_eq
  intro i
  rw [Nat.testBit_mod_two_pow, ← Nat.shiftRight_eq_div_pow, Nat.testBit_shiftRight,
    normalized_testBit]
  generalize a.testBit (24 + i) = b
  by_cases h : i < 7
  · interval_cases i <;> cases b <;> decide
  · have : Nat.testBit 63 i = false :=
      Nat.testBit_lt_two_pow (Nat.lt_of_lt_of_le (by norm_num : 63 < 2 ^ 7)
        (Nat.pow_le_pow_right (by norm_num) (by omega)))
    simp [h, this]

theorem normalized_sign (a : Nat) :
    ((a &&& 0x80ffffff) ||| 0x3f000000) / 2 ^ 31 % 2 = a / 2 ^ 31 % 2 := by
  have h := normalized_testBit a 31
  simp only [Nat.testBit_to_div_mod] at h
  simp at h
  by_cases h1 : a / 2 ^ 31 % 2 = 1
  · rw [h1]; norm_num at h h1 ⊢; omega
  · norm_num at h h1 ⊢; omega

theorem normalized_lt (a : Nat) : ((a &&& 0x80ffffff) ||| 0x3f000000) < 2 ^ 32 := by
  apply Nat.lt_pow_two_of_testBit
  intro i hi
  rw [normalized_testBit]
  have e1 : ¬ i < 24 := by omega
  have e2 : ¬ i < 30 := by omega
  have e3 : ¬ i = 31 := by omega
  simp [e1, e2, e3]

theorem sign_bit_eq (x : Nat) : sign_bit x = x / 2 ^ 31 % 2 := by
  simp [sign_bit, Nat.shiftRight_eq_div_pow]

theorem biased_exponent_eq (x : Nat) : biased_exponent x = x / 2 ^ 23 % 256 := by
  have h : (0xff : Nat) = 2 ^ 8 - 1 := by norm_num
  rw [biased_exponent, h, Nat.and_pow_two_sub_one_eq_mod, Nat.shiftRight_eq_div_pow]

theorem fraction_eq (x : Nat) : fraction x = x % 2 ^ 23 := by
  have h : (0x7fffff : Nat) = 2 ^ 23 - 1 := by norm_num
  rw [fraction, h, Nat.and_pow_two_sub_one_eq_mod]

/-- The bit fields of the result of `sqrtf_normalize`, in arithmetic form. -/
theorem sqrtf_normalize_fields (a : Nat) :
    (sqrtf_normalize a).1 < 2 ^ 32 ∧
    sign_bit (sqrtf_normalize a).1 = sign_bit a ∧
    (sqrtf_normalize a).1 % 2 ^ 24 = a % 2 ^ 24 ∧
    (sqrtf_normalize a).1 / 2 ^ 24 % 2 ^ 7 = 63 ∧
    fraction (sqrtf_normalize a).1 = fraction a ∧
    biased_exponent (sqrtf_normalize a).1 = 126 + a / 2 ^ 23 % 2 ∧
    (sqrtf_normalize a).2 = ((a / 2 ^ 24 % 128 : Nat) : Int) - 63 ∧
    biased_exponent a = 2 * (a / 2 ^ 24 % 128) + a / 2 ^ 23 % 2 := by
  have hl := normalized_low a
  have hm := normalized_mid a
  have hs := normalized_sign a
  have hlt := normalized_lt a
  have h7 : (0x7f : Nat) = 2 ^ 7 - 1 := by norm_num
  simp only [sqrtf_normalize, sign_bit_eq, fraction_eq, biased_exponent_eq, h7,
    Nat.and_pow_two_sub_one_eq_mod, Nat.shiftRight_eq_div_pow]
  refine ⟨hlt, hs, hl, hm, ?_, ?_, ?_, ?_⟩
  · omega
  · omega
  · norm_num
  · omega

/-- The value of a normal single-precision pattern, with one power of two. -/
theorem float_value_normal (x : Nat) (h1 : 1 ≤ biased_exponent x)
    (h2 : biased_exponent x ≤ 254) :
    float_value x = some ((if sign_bit x = 1 then -1 else 1) *
      ((2 ^ 23 + fraction x : Nat) : ℚ) * (2 : ℚ) ^ ((biased_exponent x : Int) - 150)) := by
  unfold float_value
  have n255 : ¬ biased_exponent x = 255 := by omega
  have n0 : ¬ biased_exponent x = 0 := by omega
  simp only [n255, n0, if_false]
  by_cases h : 150 ≤ biased_exponent x
  · simp only [h, if_true]
    have e : ((biased_exponent x : Int) - 150) = ((biased_exponent x - 150 : Nat) : Int) := by
      omega
    rw [e, zpow_natCast]
  · simp only [h, if_false]
    have e : ((biased_exponent x : Int) - 150) = -((150 - biased_exponent x : Nat) : Int) := by
      omega
    rw [e, zpow_neg, zpow_natCast, div_eq_mul_inv]

/-- C13 (as stated, refuted): the pattern `0x00000000` of the float `0.0`. The
normalised pattern is `0x3f000000`, the float `0.5`, and `exp` is -63; the
exponent fields satisfy `0 = 126 + 2 * (-63)`, but the argument `0` is not the
normalised value times `4 ^ (-63)`. -/
theorem sqrtf_normalize_zero :
    sqrtf_normalize 0 = (0x3f000000, -63) ∧
    float_value 0 = some 0 ∧
    float_value 0x3f000000 = some (1 / 2) ∧
    (0 : ℚ) ≠ (1 / 2) * (4 : ℚ) ^ (-63 : Int) := by
  have s0 : sign_bit 0 = 0 := by decide
  have b0 : biased_exponent 0 = 0 := by decide
  have f0 : fraction 0 = 0 := by decide
  have s1 : sign_bit 0x3f000000 = 0 := by decide
  have b1 : biased_exponent 0x3f000000 = 126 := by decide
  have f1 : fraction 0x3f000000 = 0 := by decide
  refine ⟨rfl, ?_, ?_, ?_⟩
  · simp [float_value, s0, b0, f0]
  · simp only [float_value, s1, b1, f1]
    norm_num
  · have h : (0 : ℚ) < (1 / 2) * (4 : ℚ) ^ (-63 : Int) := by positivity
    exact ne_of_lt h

/-- C13 (amended): for every 32-bit pattern `a`, the pattern returned by
`sqrtf_normalize` has the sign bit and the low 24 bits of `a` and bits 24 to 30
equal to 0111111, so it is a 32-bit pattern whose biased exponent is 126 or 127
and whose value has a magnitude in `[0.5, 2)`; the returned `exp` lies in
`[-63, 64]`; and `biased_exponent(a) = biased_exponent(result) + 2 * exp`.
Hence, for every normal `a` (biased exponent from 1 to 254), the argument
equals the normalised value times `4 ^ exp`. -/
theorem sqrtf_normalize_separates (a : Nat) (ha : a < 2 ^ 32) :
    (sqrtf_normalize a).1 < 2 ^ 32 ∧
    sign_bit (sqrtf_normalize a).1 = sign_bit a ∧
    (sqrtf_normalize a).1 >>> 31 = a >>> 31 ∧
    (sqrtf_normalize a).1 % 2 ^ 24 = a % 2 ^ 24 ∧
    ((sqrtf_normalize a).1 >>> 24) &&& 0x7f = 0x3f ∧
    (biased_exponent (sqrtf_normalize a).1 = 126 ∨
      biased_exponent (sqrtf_normalize a).1 = 127) ∧
    -63 ≤ (sqrtf_normalize a).2 ∧ (sqrtf_normalize a).2 ≤ 64 ∧
    (biased_exponent a : Int)
      = (biased_exponent (sqrtf_normalize a).1 : Int) + 2 * (sqrtf_normalize a).2 ∧
    ∃ V : ℚ, float_value (sqrtf_normalize a).1 = some V ∧ 1 / 2 ≤ |V| ∧ |V| < 2 ∧
      (1 ≤ biased_exponent a → biased_exponent a ≤ 254 →
        float_value a = some (V * (4 : ℚ) ^ (sqrtf_normalize a).2)) := by
  obtain ⟨hlt, hs, hl, hm, hf, hb, he, hba⟩ := sqrtf_normalize_fields a
  have h7 : (0x7f : Nat) = 2 ^ 7 - 1 := by norm_num
  have hbn1 : 1 ≤ biased_exponent (sqrtf_normalize a).1 := by omega
  have hbn2 : biased_exponent (sqrtf_normalize a).1 ≤ 254 := by omega
  have hfr : fraction a < 2 ^ 23 := by
    rw [fraction_eq]
    exact Nat.mod_lt _ (by norm_num)
  have hexp : (biased_exponent a : Int)
      = (biased_exponent (sqrtf_normalize a).1 : Int) + 2 * (sqrtf_normalize a).2 := by
    rw [hb, he, hba]
    push_cast
    ring
  refine ⟨hlt, hs, ?_, hl, ?_, by omega, by omega, by omega, hexp, ?_⟩
  · rw [sign_bit_eq, sign_bit_eq] at hs
    rw [Nat.shiftRight_eq_div_pow, Nat.shiftRight_eq_div_pow]
    omega
  · rw [h7, Nat.and_pow_two_sub_one_eq_mod, Nat.shiftRight_eq_div_pow]
    exact hm
  · refine ⟨_, float_value_normal _ hbn1 hbn2, ?_, ?_, ?_⟩
    · rw [hs, hf, abs_mul, abs_mul]
      have hsg : |(if sign_bit a = 1 then (-1 : ℚ) else 1)| = 1 := by
        split <;> simp
      rw [hsg, one_mul]
      have hq : (0 : ℚ) ≤ ((2 ^ 23 + fraction a : Nat) : ℚ) := Nat.cast_nonneg _
      have hp : (0 : ℚ) < (2 : ℚ) ^ ((biased_exponent (sqrtf_normalize a).1 : Int) - 150) := by
        positivity
      rw [abs_of_nonneg hq, abs_of_pos hp]
      have hq2 : (2 ^ 23 : ℚ) ≤ ((2 ^ 23 + fraction a : Nat) : ℚ) := by
        have : (2 ^ 23 : Nat) ≤ 2 ^ 23 + fraction a := Nat.le_add_right _ _
        exact_mod_cast this
      rcases (show biased_exponent (sqrtf_normalize a).1 = 126 ∨
          biased_exponent (sqrtf_normalize a).1 = 127 by omega) with h | h
      · rw [h]
        have : (2 : ℚ) ^ (((126 : Nat) : Int) - 150) = 1 / 2 ^ 24 := by
          norm_num [zpow_neg]
        rw [this]
        have : (1 : ℚ) / 2 = 2 ^ 23 * (1 / 2 ^ 24) := by norm_num
        rw [this]
        have hpos : (0 : ℚ) ≤ 1 / 2 ^ 24 := by norm_num
        exact mul_le_mul_of_nonneg_right hq2 hpos
      · rw [h]
        have : (2 : ℚ) ^ (((127 : Nat) : Int) - 150) = 1 / 2 ^ 23 := by
          norm_num [zpow_neg]
        rw [this]
        have : (1 : ℚ) / 2 ≤ 2 ^ 23 * (1 / 2 ^ 23) := by norm_num
        have hpos : (0 : ℚ) ≤ 1 / 2 ^ 23 := by norm_num
        exact le_trans this (mul_le_mul_of_nonneg_right hq2 hpos)
    · rw [hs, hf, abs_mul, abs_mul]
      have hsg : |(if sign_bit a = 1 then (-1 : ℚ) else 1)| = 1 := by
        split <;> simp
      rw [hsg, one_mul]
      have hq : (0 : ℚ) ≤ ((2 ^ 23 + fraction a : Nat) : ℚ) := Nat.cast_nonneg _
      have hp : (0 : ℚ) < (2 : ℚ) ^ ((biased_exponent (sqrtf_normalize a).1 : Int) - 150) := by
        positivity
      rw [abs_of_nonneg hq, abs_of_pos hp]
      have hq2 : ((2 ^ 23 + fraction a : Nat) : ℚ) < 2 ^ 24 := by
        have : 2 ^ 23 + fraction a < 2 ^ 24 := by omega
        exact_mod_cast this
      rcases (show biased_exponent (sqrtf_normalize a).1 = 126 ∨
          biased_exponent (sqrtf_normalize a).1 = 127 by omega) with h | h
      · rw [h]
        have : (2 : ℚ) ^ (((126 : Nat) : Int) - 150) = 1 / 2 ^ 24 := by
          norm_num [zpow_neg]
        rw [this]
        have h2 : (2 : ℚ) ^ 24 * (1 / 2 ^ 24) ≤ 2 := by norm_num
        have hpos : (0 : ℚ) < 1 / 2 ^ 24 := by norm_num
        exact lt_of_lt_of_le (mul_lt_mul_of_pos_right hq2 hpos) h2
      · rw [h]
        have : (2 : ℚ) ^ (((127 : Nat) : Int) - 150) = 1 / 2 ^ 23 := by
          norm_num [zpow_neg]
        rw [this]
        have h2 : (2 : ℚ) ^ 24 * (1 / 2 ^ 23) = 2 := by norm_num
        have hpos : (0 : ℚ) < 1 / 2 ^ 23 := by norm_num
        exact lt_of_lt_of_le (mul_lt_mul_of_pos_right hq2 hpos) (le_of_eq h2)
    · intro h1 h2
      have h4 : (4 : ℚ) = 2 ^ (2 : Int) := by norm_num
      have hz : (2 : ℚ) ^ ((biased_exponent (sqrtf_normalize a).1 : Int)
            + 2 * (sqrtf_normalize a).2 - 150)
          = 2 ^ ((biased_exponent (sqrtf_normalize a).1 : Int) - 150)
            * (4 : ℚ) ^ (sqrtf_normalize a).2 := by
        rw [h4, ← zpow_mul, ← zpow_add₀ (by norm_num : (2 : ℚ) ≠ 0)]
        congr 1
        ring
      rw [float_value_normal a h1 h2, hs, hf, hexp, hz]
      congr 1
      ring

/-- C13 (amended), at the pattern `0x40490fdb` of the float nearest to pi. -/
theorem sqrtf_normalize_separates_witness :
    (sqrtf_normalize 0x40490fdb).1 < 2 ^ 32 ∧
    sign_bit (sqrtf_normalize 0x40490fdb).1 = sign_bit 0x40490fdb ∧
    (sqrtf_normalize 0x40490fdb).1 >>> 31 = 0x40490fdb >>> 31 ∧
    (sqrtf_normalize 0x40490fdb).1 % 2 ^ 24 = 0x40490fdb % 2 ^ 24 ∧
    ((sqrtf_normalize 0x40490fdb).1 >>> 24) &&& 0x7f = 0x3f ∧
    (biased_exponent (sqrtf_normalize 0x40490fdb).1 = 126 ∨
      biased_exponent (sqrtf_normalize 0x40490fdb).1 = 127) ∧
    -63 ≤ (sqrtf_normalize 0x40490fdb).2 ∧ (sqrtf_normalize 0x40490fdb).2 ≤ 64 ∧
    (biased_exponent 0x40490fdb : Int)
      = (biased_exponent (sqrtf_normalize 0x40490fdb).1 : Int)
        + 2 * (sqrtf_normalize 0x40490fdb).2 ∧
    ∃ V : ℚ, float_value (sqrtf_normalize 0x40490fdb).1 = some V ∧ 1 / 2 ≤ |V| ∧ |V| < 2 ∧
      (1 ≤ biased_exponent 0x40490fdb → biased_exponent 0x40490fdb ≤ 254 →
        float_value 0x40490fdb = some (V * (4 : ℚ) ^ (sqrtf_normalize 0x40490fdb).2)) :=
  sqrtf_normalize_separates 0x40490fdb (by decide)

end MR32
